import Mathlib

/-!
# zookeepercli: the command-line shell (`main.go`)

A shallow embedding of `src/github.com/outbrain/zookeepercli/main.go`.

`main` is a straight-line program over four collaborators that are not part of
the file: the `flag` parser, the `log` package, the `zk` node-operations package
and the `output` package, plus `ioutil.ReadFile`.  The embedding runs `main` in a
small process monad that records every call `main` makes to a collaborator,
together with the value the collaborator returned, in the order the calls are made.
What the collaborators return is supplied by an environment that may depend on
everything that happened before the call.
-/

namespace Zookeepercli

/-! ## Go strings and the string functions `main` uses -/

/-- A Go `string`: an immutable sequence of bytes. -/
abbrev GoString := List UInt8

/-- A Go `[]byte`. The conversion `[]byte(s)` copies the bytes of `s` unchanged. -/
abbrev Bytes := List UInt8

/-- The bytes of an ASCII string literal of the source. -/
def ascii (s : String) : GoString := s.toList.map (fun c => UInt8.ofNat c.toNat)

/-- Go `strings.HasSuffix`:
`len(s) >= len(suffix) && s[len(s)-len(suffix):] == suffix`. -/
def HasSuffix (s suffix : GoString) : Bool :=
  decide (s.length ≥ suffix.length) && decide (s.drop (s.length - suffix.length) = suffix)

/-- The scan of `strings.Split` for a non-empty separator: `cur` holds (reversed)
the bytes of the piece being read, `skip` the number of bytes of a separator
occurrence still to be passed over. -/
def splitScan (sep : GoString) : GoString → Nat → GoString → List GoString
  | [], _, cur => [cur.reverse]
  | _ :: rest, skip + 1, cur => splitScan sep rest skip cur
  | c :: rest, 0, cur =>
    if sep.isPrefixOf (c :: rest) then
      cur.reverse :: splitScan sep rest (sep.length - 1) []
    else
      splitScan sep rest 0 (c :: cur)

/-- Go `strings.Split(s, sep)` for a non-empty `sep` (the only use in `main` is
with `","`): the pieces of `s` between consecutive, non-overlapping occurrences of
`sep`, found left to right. -/
def Split (s sep : GoString) : List GoString := splitScan sep s 0 []

/-- Go `flag.Arg(i)`: the `i`-th positional argument, or `""` when there is none. -/
def flagArg (args : List GoString) (i : Nat) : GoString := args.getD i []

/-! ## Calls to the collaborators -/

/-- The log levels `main` selects. -/
inductive LogLevel where
  | ERROR
  | INFO
  | DEBUG
  deriving DecidableEq

/-- The value formatted by a `log.Infof` call of `main`: the result of `zk.Create`
or the result of `zk.Set` / `zk.SetWithVersionUpgrade`. -/
inductive LogArg (Created Stat : Type) where
  | created (r : Created)
  | stat (r : Stat)
  deriving DecidableEq

/-- One call made by `main`, with its arguments and (last) the values it returned.
`Err` is the type of non-nil Go errors (`none` is `nil`); `Created` and `Stat` are
the result types of `zk.Create` and of `zk.Set` / `zk.SetWithVersionUpgrade`,
which are declared outside `main.go`. -/
inductive Event (Err Created Stat : Type) where
  | logSetLevel (level : LogLevel)
  | logSetPrintStackTrace (enabled : Bool)
  | logInfo (message : GoString) (args : List GoString)
  | logInfof (format : GoString) (arg : LogArg Created Stat)
  | logFatal (message : GoString)
  | logFatalf (format : GoString) (arg : GoString)
  | logFatale (err : Option Err)
  | ioutilReadFile (name : GoString) (bytes : Bytes) (err : Option Err)
  | zkSetServers (servers : List GoString)
  | zkExists (path : GoString) (found : Bool) (err : Option Err)
  | zkGet (path : GoString) (result : Bytes) (err : Option Err)
  | zkChildren (path : GoString) (result : List GoString) (err : Option Err)
  | zkChildrenRecursive (path : GoString) (result : List GoString) (err : Option Err)
  | zkCreate (path : GoString) (data : Bytes) (force : Bool) (result : Created)
      (err : Option Err)
  | zkSet (path : GoString) (data : Bytes) (result : Stat) (err : Option Err)
  | zkSetWithVersionUpgrade (path : GoString) (data : Bytes) (result : Stat)
      (err : Option Err)
  | zkDelete (path : GoString) (err : Option Err)
  | outputPrintString (data : Bytes) (format : GoString)
  | outputPrintStringArray (data : List GoString) (format : GoString)
  deriving DecidableEq

/-- What the collaborators answer. Every answer may depend on `hist`, the calls
made so far (and their answers), so an answer may depend on any state the
earlier calls left behind. A Go function returning `(value, error)` answers
with a pair whose second component is `none` for a `nil` error. -/
structure Env (Err Created Stat : Type) where
  ReadFile : List (Event Err Created Stat) → GoString → Bytes × Option Err
  Exists : List (Event Err Created Stat) → GoString → Bool × Option Err
  Get : List (Event Err Created Stat) → GoString → Bytes × Option Err
  Children : List (Event Err Created Stat) → GoString → List GoString × Option Err
  ChildrenRecursive :
    List (Event Err Created Stat) → GoString → List GoString × Option Err
  Create :
    List (Event Err Created Stat) → GoString → Bytes → Bool → Created × Option Err
  Set : List (Event Err Created Stat) → GoString → Bytes → Stat × Option Err
  SetWithVersionUpgrade :
    List (Event Err Created Stat) → GoString → Bytes → Stat × Option Err
  Delete : List (Event Err Created Stat) → GoString → Option Err

/-! ## The process monad -/

/-- The state of a run after some steps: the calls made so far, and the value of
the last step, or `none` once the process has exited. -/
structure Outcome (E α : Type) where
  trace : List E
  value : Option α

/-- A fragment of a process: from the calls made so far to the outcome. -/
def Proc (E α : Type) : Type := List E → Outcome E α

/-- Sequencing: nothing runs after the process has exited. -/
def Proc.bind {E α β : Type} (m : Proc E α) (f : α → Proc E β) : Proc E β :=
  fun hist =>
    match m hist with
    | ⟨hist1, some a⟩ => f a hist1
    | ⟨hist1, none⟩ => ⟨hist1, none⟩

instance {E : Type} : Monad (Proc E) where
  pure a := fun hist => ⟨hist, some a⟩
  bind := Proc.bind

/-- A call to a collaborator: `answer` is what it returns given the calls made so
far, `ev` the record of the call. -/
def call {E R : Type} (answer : List E → R) (ev : R → E) : Proc E R :=
  fun hist => ⟨hist ++ [ev (answer hist)], some (answer hist)⟩

/-- A call that ends the process: the call is recorded and nothing follows it. -/
def callExit {E α : Type} (ev : E) : Proc E α :=
  fun hist => ⟨hist ++ [ev], none⟩

section Calls

variable {Err Created Stat : Type}

def logSetLevel (level : LogLevel) : Proc (Event Err Created Stat) Unit :=
  call (fun _ => ()) (fun _ => .logSetLevel level)

def logSetPrintStackTrace (enabled : Bool) : Proc (Event Err Created Stat) Unit :=
  call (fun _ => ()) (fun _ => .logSetPrintStackTrace enabled)

def logInfo (message : GoString) (args : List GoString) :
    Proc (Event Err Created Stat) Unit :=
  call (fun _ => ()) (fun _ => .logInfo message args)

def logInfof (format : GoString) (arg : LogArg Created Stat) :
    Proc (Event Err Created Stat) Unit :=
  call (fun _ => ()) (fun _ => .logInfof format arg)

/-- Modelled from the spec: package `github.com/outbrain/log` is not under `src/`.
`log.Fatal` logs its message and terminates the process ("the source terminates
the whole process on first error", spec section 9). -/
def logFatal {α : Type} (message : GoString) : Proc (Event Err Created Stat) α :=
  callExit (.logFatal message)

/-- Modelled from the spec: `log.Fatalf` is `log.Fatal` with a format string;
it terminates the process. -/
def logFatalf {α : Type} (format arg : GoString) : Proc (Event Err Created Stat) α :=
  callExit (.logFatalf format arg)

/-- Modelled from the spec: `log.Fatale` is `log.Fatal` for an error value;
it terminates the process. -/
def logFatale {α : Type} (err : Option Err) : Proc (Event Err Created Stat) α :=
  callExit (.logFatale err)

def ioutilReadFile (env : Env Err Created Stat) (name : GoString) :
    Proc (Event Err Created Stat) (Bytes × Option Err) :=
  call (fun hist => env.ReadFile hist name) (fun r => .ioutilReadFile name r.1 r.2)

def zkSetServers (servers : List GoString) : Proc (Event Err Created Stat) Unit :=
  call (fun _ => ()) (fun _ => .zkSetServers servers)

def zkExists (env : Env Err Created Stat) (path : GoString) :
    Proc (Event Err Created Stat) (Bool × Option Err) :=
  call (fun hist => env.Exists hist path) (fun r => .zkExists path r.1 r.2)

def zkGet (env : Env Err Created Stat) (path : GoString) :
    Proc (Event Err Created Stat) (Bytes × Option Err) :=
  call (fun hist => env.Get hist path) (fun r => .zkGet path r.1 r.2)

def zkChildren (env : Env Err Created Stat) (path : GoString) :
    Proc (Event Err Created Stat) (List GoString × Option Err) :=
  call (fun hist => env.Children hist path) (fun r => .zkChildren path r.1 r.2)

def zkChildrenRecursive (env : Env Err Created Stat) (path : GoString) :
    Proc (Event Err Created Stat) (List GoString × Option Err) :=
  call (fun hist => env.ChildrenRecursive hist path)
    (fun r => .zkChildrenRecursive path r.1 r.2)

def zkCreate (env : Env Err Created Stat) (path : GoString) (data : Bytes)
    (force : Bool) : Proc (Event Err Created Stat) (Created × Option Err) :=
  call (fun hist => env.Create hist path data force)
    (fun r => .zkCreate path data force r.1 r.2)

def zkSet (env : Env Err Created Stat) (path : GoString) (data : Bytes) :
    Proc (Event Err Created Stat) (Stat × Option Err) :=
  call (fun hist => env.Set hist path data) (fun r => .zkSet path data r.1 r.2)

def zkSetWithVersionUpgrade (env : Env Err Created Stat) (path : GoString)
    (data : Bytes) : Proc (Event Err Created Stat) (Stat × Option Err) :=
  call (fun hist => env.SetWithVersionUpgrade hist path data)
    (fun r => .zkSetWithVersionUpgrade path data r.1 r.2)

def zkDelete (env : Env Err Created Stat) (path : GoString) :
    Proc (Event Err Created Stat) (Option Err) :=
  call (fun hist => env.Delete hist path) (fun r => .zkDelete path r)

def outputPrintString (data : Bytes) (format : GoString) :
    Proc (Event Err Created Stat) Unit :=
  call (fun _ => ()) (fun _ => .outputPrintString data format)

def outputPrintStringArray (data : List GoString) (format : GoString) :
    Proc (Event Err Created Stat) Unit :=
  call (fun _ => ()) (fun _ => .outputPrintStringArray data format)

end Calls

/-! ## `main` -/

/-- The command line after `flag.Parse()`: the values of the flags and the
positional arguments `flag.Args()`. -/
structure Invocation where
  servers : GoString
  command : GoString
  input_file : GoString
  force : Bool
  format : GoString
  verbose : Bool
  debug : Bool
  stack : Bool
  args : List GoString
  deriving DecidableEq

section Main

variable {Err Created Stat : Type}

/-- The command switch of `main` (lines 79-172), entered with the path and with
the values `command` and `force` hold after the `creater` rewrite. -/
def dispatch (env : Env Err Created Stat) (inv : Invocation) (path command : GoString)
    (force : Bool) : Proc (Event Err Created Stat) Unit := do
  if command = ascii "exists" then
    let (found, err) ← zkExists env path
    if err.isNone && found then
      outputPrintString (ascii "true") inv.format
    else
      logFatale err
  else if command = ascii "get" then
    let (result, err) ← zkGet env path
    if err.isNone then
      outputPrintString result inv.format
    else
      logFatale err
  else if command = ascii "ls" then
    let (result, err) ← zkChildren env path
    if err.isNone then
      outputPrintStringArray result inv.format
    else
      logFatale err
  else if command = ascii "lsr" then
    let (result, err) ← zkChildrenRecursive env path
    if err.isNone then
      outputPrintStringArray result inv.format
    else
      logFatale err
  else if command = ascii "create" then
    if inv.input_file.length ≠ 0 then
      logInfo (ascii "Reading input file: ") [inv.input_file]
      let (bytes, err) ← ioutilReadFile env inv.input_file
      if err.isSome then
        logFatale err
      let (result, err) ← zkCreate env path bytes force
      if err.isNone then
        logInfof (ascii "Created %+v") (.created result)
      else
        logFatale err
    else
      if inv.args.length < 2 then
        logFatal (ascii "Expected data argument")
      let (result, err) ← zkCreate env path (flagArg inv.args 1) force
      if err.isNone then
        logInfof (ascii "Created %+v") (.created result)
      else
        logFatale err
  else if command = ascii "set" then
    if inv.input_file.length ≠ 0 then
      logInfo (ascii "Reading input file: ") [inv.input_file]
      let (bytes, err) ← ioutilReadFile env inv.input_file
      if err.isSome then
        logFatale err
      let (result, err) ← zkSetWithVersionUpgrade env path bytes
      if err.isNone then
        logInfof (ascii "Set %+v") (.stat result)
      else
        logFatale err
    else
      if inv.args.length < 2 then
        logFatal (ascii "Expected data argument")
      let (result, err) ← zkSet env path (flagArg inv.args 1)
      if err.isNone then
        logInfof (ascii "Set %+v") (.stat result)
      else
        logFatale err
  else if command = ascii "delete" then
    let err ← zkDelete env path
    if err.isSome then
      logFatale err
  else
    logFatalf (ascii "Unknown command: %s") command

/-- The function `main` of `main.go`, after `flag.Parse()`. -/
def main (env : Env Err Created Stat) (inv : Invocation) :
    Proc (Event Err Created Stat) Unit := do
  logSetLevel .ERROR
  if inv.verbose then
    logSetLevel .INFO
  if inv.debug then
    logSetLevel .DEBUG
  if inv.stack then
    logSetPrintStackTrace inv.stack
  logInfo (ascii "starting") []
  if inv.servers = ascii "" then
    logFatal (ascii "Expected comma delimited list of servers via --servers")
  let serversArray := Split inv.servers (ascii ",")
  if serversArray.length = 0 then
    logFatal (ascii "Expected comma delimited list of servers via --servers")
  if inv.command.length = 0 then
    logFatal (ascii "Expected command (-c) (exists|get|ls|lsr|create|creater|set|delete)")
  if inv.args.length < 1 then
    logFatal (ascii "Expected path argument")
  let path := flagArg inv.args 0
  if HasSuffix path (ascii "/") then
    logFatal (ascii "Path must not end with '/'")
  zkSetServers serversArray
  let mut command := inv.command
  let mut force := inv.force
  if command = ascii "creater" then
    command := ascii "create"
    force := true
  dispatch env inv path command force

/-- The run of `main` from the start of the process. -/
def run (env : Env Err Created Stat) (inv : Invocation) :
    Outcome (Event Err Created Stat) Unit :=
  main env inv []

/-- The calls `main` makes, in order. -/
def mainTrace (env : Env Err Created Stat) (inv : Invocation) :
    List (Event Err Created Stat) :=
  (run env inv).trace

end Main

/-! ## Reading a trace -/

/-- A call to a node operation of package `zk`, with its arguments. -/
inductive NodeCall where
  | Exists (path : GoString)
  | Get (path : GoString)
  | Children (path : GoString)
  | ChildrenRecursive (path : GoString)
  | Create (path : GoString) (data : Bytes) (force : Bool)
  | Set (path : GoString) (data : Bytes)
  | SetWithVersionUpgrade (path : GoString) (data : Bytes)
  | Delete (path : GoString)
  deriving DecidableEq

/-- The path handed to a node operation. -/
def NodeCall.path : NodeCall → GoString
  | .Exists p => p
  | .Get p => p
  | .Children p => p
  | .ChildrenRecursive p => p
  | .Create p _ _ => p
  | .Set p _ => p
  | .SetWithVersionUpgrade p _ => p
  | .Delete p => p

section Reading

variable {Err Created Stat : Type}

/-- The node operation an event is a call of, if it is one. -/
def Event.nodeCall : Event Err Created Stat → Option NodeCall
  | .zkExists p _ _ => some (.Exists p)
  | .zkGet p _ _ => some (.Get p)
  | .zkChildren p _ _ => some (.Children p)
  | .zkChildrenRecursive p _ _ => some (.ChildrenRecursive p)
  | .zkCreate p d f _ _ => some (.Create p d f)
  | .zkSet p d _ _ => some (.Set p d)
  | .zkSetWithVersionUpgrade p d _ _ => some (.SetWithVersionUpgrade p d)
  | .zkDelete p _ => some (.Delete p)
  | _ => none

/-- The error returned by a file read or a node operation (`none`: it returned
`nil`, or the event is another call). -/
def Event.failure : Event Err Created Stat → Option Err
  | .ioutilReadFile _ _ err => err
  | .zkExists _ _ err => err
  | .zkGet _ _ err => err
  | .zkChildren _ _ err => err
  | .zkChildrenRecursive _ _ err => err
  | .zkCreate _ _ _ _ err => err
  | .zkSet _ _ _ err => err
  | .zkSetWithVersionUpgrade _ _ _ err => err
  | .zkDelete _ err => err
  | _ => none

/-- Calls to package `output`. -/
def Event.isOutput : Event Err Created Stat → Bool
  | .outputPrintString _ _ => true
  | .outputPrintStringArray _ _ => true
  | _ => false

/-- Calls to `zk.SetServers`. -/
def Event.isSetServers : Event Err Created Stat → Bool
  | .zkSetServers _ => true
  | _ => false

/-- The node operations called in a trace, in order. -/
def nodeCalls (tr : List (Event Err Created Stat)) : List NodeCall :=
  tr.filterMap Event.nodeCall

/-- The output calls of a trace, in order. -/
def outputCalls (tr : List (Event Err Created Stat)) : List (Event Err Created Stat) :=
  tr.filter Event.isOutput

/-- The `zk.SetServers` calls of a trace. -/
def setServersCalls (tr : List (Event Err Created Stat)) :
    List (Event Err Created Stat) :=
  tr.filter Event.isSetServers

end Reading

/-- An invocation that passes the checks `main` makes before `zk.SetServers`:
servers given, command given, a path argument given, and the path does not end
with `/`. -/
def Valid (inv : Invocation) : Prop :=
  inv.servers ≠ [] ∧ inv.command ≠ [] ∧ inv.args ≠ [] ∧
    HasSuffix (flagArg inv.args 0) (ascii "/") = false

instance (inv : Invocation) : Decidable (Valid inv) := by
  unfold Valid
  infer_instance

/-! ## Auxiliary definitions for the runs of `main` -/

section Aux

variable {Err Created Stat : Type}

/-- The calls `main` makes before its first check: log configuration and the
`starting` message. -/
def preamble (inv : Invocation) : List (Event Err Created Stat) :=
  [.logSetLevel .ERROR] ++ (if inv.verbose then [.logSetLevel .INFO] else []) ++
    (if inv.debug then [.logSetLevel .DEBUG] else []) ++
    (if inv.stack then [.logSetPrintStackTrace inv.stack] else []) ++
    [.logInfo (ascii "starting") []]

/-- The calls `main` has made when it enters the command switch. -/
def start (inv : Invocation) : List (Event Err Created Stat) :=
  preamble inv ++ [.zkSetServers (Split inv.servers (ascii ","))]

/-- The history once `main` has logged that it reads the input file. -/
def afterInfo (inv : Invocation) (hist : List (Event Err Created Stat)) :
    List (Event Err Created Stat) :=
  hist ++ [.logInfo (ascii "Reading input file: ") [inv.input_file]]

/-- What `ioutil.ReadFile(*input_file)` returns in the run from `hist`. -/
def fileRead (env : Env Err Created Stat) (inv : Invocation)
    (hist : List (Event Err Created Stat)) : Bytes × Option Err :=
  env.ReadFile (afterInfo inv hist) inv.input_file

/-- The history once the input file has been read. -/
def afterRead (env : Env Err Created Stat) (inv : Invocation)
    (hist : List (Event Err Created Stat)) : List (Event Err Created Stat) :=
  afterInfo inv hist ++
    [.ioutilReadFile inv.input_file (fileRead env inv hist).1 (fileRead env inv hist).2]

/-- The run of a write command: `op` is the node operation (`zk.Create`, `zk.Set`
or `zk.SetWithVersionUpgrade`) already given its path and data, `ev` records its
call, `ok` is the log call made when it returns no error. -/
def writeStep {R : Type} (hist : List (Event Err Created Stat))
    (op : List (Event Err Created Stat) → R × Option Err)
    (ev : R → Option Err → Event Err Created Stat)
    (ok : R → Event Err Created Stat) : Outcome (Event Err Created Stat) Unit :=
  if (op hist).2.isNone then
    ⟨hist ++ [ev (op hist).1 (op hist).2, ok (op hist).1], some ()⟩
  else
    ⟨hist ++ [ev (op hist).1 (op hist).2, .logFatale (op hist).2], none⟩

/-- A command that is none of those of the switch of `main`. -/
def Unknown (command : GoString) : Prop :=
  command ≠ ascii "exists" ∧ command ≠ ascii "get" ∧ command ≠ ascii "ls" ∧
    command ≠ ascii "lsr" ∧ command ≠ ascii "create" ∧ command ≠ ascii "set" ∧
    command ≠ ascii "delete"

/-- The command the switch of `main` sees: `creater` has become `create`. -/
def switchCommand (inv : Invocation) : GoString :=
  if inv.command = ascii "creater" then ascii "create" else inv.command

/-- The force value the switch of `main` sees: `creater` has set it. -/
def switchForce (inv : Invocation) : Bool :=
  if inv.command = ascii "creater" then true else inv.force

/-- The run has ended in a call of `log.Fatal`. -/
def EndsInFatal (o : Outcome (Event Err Created Stat) Unit) : Prop :=
  o.value = none ∧ ∃ msg, o.trace.getLast? = some (.logFatal msg)

/-- The run stopped at the failed call `ev`: the process has exited, `ev` is followed
by `log.Fatale(e)` and by nothing else, no output call was made, and no node
operation other than (possibly) `ev` was called. -/
def StopsAt (o : Outcome (Event Err Created Stat) Unit) (ev : Event Err Created Stat)
    (e : Err) : Prop :=
  o.value = none ∧ (∃ pre, o.trace = pre ++ [ev, .logFatale (some e)]) ∧
    outputCalls o.trace = [] ∧ nodeCalls o.trace = nodeCalls [ev]

end Aux

/-! ## Notions used in the statements -/

/-- The commands documented in the usage string of the `-c` flag:
`exists|get|ls|lsr|create|creater|set|delete`. -/
def documentedCommands : List GoString :=
  [ascii "exists", ascii "get", ascii "ls", ascii "lsr", ascii "create", ascii "creater",
    ascii "set", ascii "delete"]

/-- The commands that write data: `create`, `creater` and `set`. -/
def writeCommands : List GoString := [ascii "create", ascii "creater", ascii "set"]

/-- The pairing of commands and node operations: `exists` with `zk.Exists`, `get`
with `zk.Get`, `ls` with `zk.Children`, `lsr` with `zk.ChildrenRecursive`, `create`
and `creater` with `zk.Create`, `delete` with `zk.Delete`, `set` with `zk.Set` or
`zk.SetWithVersionUpgrade`. -/
def Matches (command : GoString) : NodeCall → Prop
  | .Exists _ => command = ascii "exists"
  | .Get _ => command = ascii "get"
  | .Children _ => command = ascii "ls"
  | .ChildrenRecursive _ => command = ascii "lsr"
  | .Create _ _ _ => command = ascii "create" ∨ command = ascii "creater"
  | .Set _ _ => command = ascii "set"
  | .SetWithVersionUpgrade _ _ => command = ascii "set"
  | .Delete _ => command = ascii "delete"

instance (command : GoString) (c : NodeCall) : Decidable (Matches command c) := by
  cases c <;> unfold Matches <;> infer_instance

/-- The data of a write command is at hand: with an input file, the trace records
that the file was read without error; without one, a second positional argument
is given. -/
def DataGiven {Err Created Stat : Type} (inv : Invocation)
    (tr : List (Event Err Created Stat)) : Prop :=
  if inv.input_file = [] then 2 ≤ inv.args.length
  else ∃ bytes, Event.ioutilReadFile inv.input_file bytes none ∈ tr

/-! ## Concrete collaborators and command lines -/

/-- A collaborator whose every call succeeds; the store holds `/a` with two
children. -/
def sampleEnv : Env Nat Nat Nat where
  ReadFile := fun _ _ => (ascii "from file", none)
  Exists := fun _ _ => (true, none)
  Get := fun _ _ => (ascii "value", none)
  Children := fun _ _ => ([ascii "b", ascii "c"], none)
  ChildrenRecursive := fun _ _ => ([ascii "b", ascii "b/d", ascii "c"], none)
  Create := fun _ _ _ _ => (1, none)
  Set := fun _ _ _ => (2, none)
  SetWithVersionUpgrade := fun _ _ _ => (3, none)
  Delete := fun _ _ => none

/-- A collaborator whose file read succeeds and whose every node operation fails
with error `7`. -/
def failingEnv : Env Nat Nat Nat where
  ReadFile := fun _ _ => (ascii "from file", none)
  Exists := fun _ _ => (false, some 7)
  Get := fun _ _ => ([], some 7)
  Children := fun _ _ => ([], some 7)
  ChildrenRecursive := fun _ _ => ([], some 7)
  Create := fun _ _ _ _ => (0, some 7)
  Set := fun _ _ _ => (0, some 7)
  SetWithVersionUpgrade := fun _ _ _ => (0, some 7)
  Delete := fun _ _ => some 7

/-- The command line `-servers localhost:2181 -c <command> [-f <file>] <args>`. -/
def commandLine (command file : String) (args : List String) : Invocation where
  servers := ascii "localhost:2181"
  command := ascii command
  input_file := ascii file
  force := false
  format := ascii "txt"
  verbose := false
  debug := false
  stack := false
  args := args.map ascii

/-! ## The node tree and `childrenRecursive` (spec sections 3, 4.1 and 6)

Package `zk`, which holds `ChildrenRecursive`, is not among the sources; the
operation is modelled from the spec. -/

/-- Modelled from the spec: a path segment (section 3), the name of a node under its
parent. -/
abbrev Name := GoString

/-- Modelled from the spec: a path (section 3), as the sequence of its segments from
the root of the store ("two paths are equal iff their segment sequences are
equal"). -/
abbrev Path := List Name

/-- Modelled from the spec: the node tree of spec section 3, given as the list of the
children of a node: `node name sub rest` is a first child called `name`, with the
children `sub`, followed by its siblings `rest`. The data and the version of a
node play no part in listing and are left out. -/
inductive Tree where
  | nil : Tree
  | node (name : Name) (sub : Tree) (rest : Tree) : Tree
  deriving DecidableEq

/-- The names of the children, first child first. -/
def Tree.names : Tree → List Name
  | .nil => []
  | .node n _ rest => n :: rest.names

/-- The tree below the child called `name`. -/
def Tree.find : Tree → Name → Option Tree
  | .nil, _ => none
  | .node n sub rest, name => if n = name then some sub else rest.find name

/-- The tree below the node reached along `path`, if there is such a node. -/
def Tree.resolve : Tree → Path → Option Tree
  | t, [] => some t
  | t, n :: p =>
    match t.find n with
    | none => none
    | some sub => sub.resolve p

/-- The number of levels below a node. -/
def Tree.height : Tree → Nat
  | .nil => 0
  | .node _ sub rest => max (sub.height + 1) rest.height

/-- Modelled from the spec: a segment is non-empty and holds no `/`
("slash-separated non-empty segments", section 3). -/
def validName (n : Name) : Bool := decide (n ≠ []) && decide ((47 : UInt8) ∉ n)

/-- Modelled from the spec: a tree of the data model (section 3): every name is a
segment, and no two children of a node have the same name ("a node is identified
by exactly one path"). -/
def Tree.wellFormed : Tree → Bool
  | .nil => true
  | .node n sub rest =>
    validName n && decide (n ∉ rest.names) && sub.wellFormed && rest.wellFormed

deriving instance DecidableEq for Except

/-- Modelled from the spec: the failure signals of `listChildren` (section 6). -/
inductive StoreError where
  | NotFound
  | Connectivity
  deriving DecidableEq

/-- Modelled from the spec: the Store Client primitive `listChildren` (section 6) of
a store that holds the tree `T`: the names of the immediate children of the node
at `path`, or not-found. -/
def Tree.listChildren (T : Tree) (path : Path) : Except StoreError (List Name) :=
  match T.resolve path with
  | some t => .ok t.names
  | none => .error .NotFound

/-- Modelled from the spec: the relative path of a child, "parent's relative path +
"/" + child name, or just the child name at depth 1" (section 4.1). `parent` is
`none` at the node the traversal starts from. -/
def childRelative (parent : Option GoString) (child : Name) : GoString :=
  match parent with
  | none => child
  | some p => p ++ ascii "/" ++ child

/-- Modelled from the spec: the loop over the children of a visited node, "for each
child, append the child's full relative path to the result, then recurse into
that child" (section 4.1). `visit` is the recursion into a child; its result is
`none` when the traversal ran out of fuel, an error when `listChildren` failed
("the whole operation fails and returns the underlying error; no partial result
is returned"). -/
def forEachChild {ε : Type} (visit : Name → Option (Except ε (List GoString)))
    (rel : Name → GoString) : List Name → Option (Except ε (List GoString))
  | [] => some (.ok [])
  | child :: rest =>
    match visit child with
    | none => none
    | some (.error e) => some (.error e)
    | some (.ok below) =>
      match forEachChild visit rel rest with
      | none => none
      | some (.error e) => some (.error e)
      | some (.ok more) => some (.ok (rel child :: below ++ more))

/-- Modelled from the spec: the traversal of section 4.1 from the node at `path`,
whose relative path is `rel`: "at each visited node, call `listChildren` to get
its immediate children", then loop over them. The spec leaves termination to the
store ("the node tree has finite depth and no cycles"); here `fuel` bounds the
depth of the recursion and the result is `none` when it runs out. -/
def childrenRecursiveFrom {ε : Type} (listChildren : Path → Except ε (List Name)) :
    Nat → Path → Option GoString → Option (Except ε (List GoString))
  | 0, _, _ => none
  | fuel + 1, path, rel =>
    match listChildren path with
    | .error e => some (.error e)
    | .ok children =>
      forEachChild
        (fun child =>
          childrenRecursiveFrom listChildren fuel (path ++ [child])
            (some (childRelative rel child)))
        (childRelative rel) children

/-- Modelled from the spec: `childrenRecursive(path)` (section 4.1), the operation
behind `zk.ChildrenRecursive`: the relative paths of the descendants of `path`,
fully materialized into one sequence. -/
def childrenRecursive {ε : Type} (listChildren : Path → Except ε (List Name))
    (fuel : Nat) (path : Path) : Option (Except ε (List GoString)) :=
  childrenRecursiveFrom listChildren fuel path none

/-- The segments of a path joined by `/`. -/
def joinSegments : Path → GoString
  | [] => []
  | [n] => n
  | n :: m :: rest => n ++ ascii "/" ++ joinSegments (m :: rest)

/-- Modelled from the spec: the string of a path (section 3), the root marker `/`
followed by the segments joined by `/`, as in `/a/b`; the root itself is `/`. -/
def pathString (p : Path) : GoString := ascii "/" ++ joinSegments p

/-- The string of a path below `root` stripped of the root prefix: the string of
`root` and the separator after it are dropped (the root of the store, `/`, ends in
the separator already). -/
def stripRoot (root : Path) (full : GoString) : GoString :=
  full.drop (if root = [] then 1 else (pathString root).length + 1)

/-- The paths `segs` of the non-root descendants of the root of `S`. -/
def Tree.isDescendant (S : Tree) (segs : Path) : Prop :=
  segs ≠ [] ∧ (S.resolve segs).isSome = true

/-- The node at `root ++ segs` is a descendant of the node at `root`, other than
that node itself. -/
def Tree.isDescendantOf (T : Tree) (root segs : Path) : Prop :=
  segs ≠ [] ∧ (T.resolve (root ++ segs)).isSome = true

/-- The relative path of the node reached along `p` from a node whose relative
path is `rel`. -/
def joinRel (rel : Option GoString) (p : Path) : GoString :=
  match rel with
  | none => joinSegments p
  | some s => s ++ ascii "/" ++ joinSegments p

/-- The nodes below the root of a tree in pre-order, each by its path from the
root. -/
def Tree.preorder : Tree → List Path
  | .nil => []
  | .node n sub rest => [n] :: (sub.preorder.map (fun p => n :: p)) ++ rest.preorder

/-- The store of the examples: `/a` with the children `b` (which has the child `d`)
and `c`, and `/e`. -/
def sampleTree : Tree :=
  .node (ascii "a")
    (.node (ascii "b") (.node (ascii "d") .nil .nil) (.node (ascii "c") .nil .nil))
    (.node (ascii "e") .nil .nil)

/-! ## Unfolding `main` -/

section Unfold

variable {Err Created Stat : Type}

theorem splitScan_ne_nil (sep s : GoString) (skip : Nat) (cur : GoString) :
    splitScan sep s skip cur ≠ [] := by
  induction s generalizing skip cur with
  | nil => simp [splitScan]
  | cons c rest ih =>
    cases skip with
    | zero =>
      simp only [splitScan]
      split
      · simp
      · exact ih 0 _
    | succ k => simpa [splitScan] using ih k cur

theorem callExit_bind {E α β : Type} (ev : E) (f : α → Proc E β) :
    (callExit ev >>= f) = callExit ev := by
  funext hist
  simp [bind, Proc.bind, callExit]

theorem pure_bind_proc {E α β : Type} (a : α) (f : α → Proc E β) :
    ((pure a : Proc E α) >>= f) = f a := by
  funext hist
  simp [bind, Proc.bind, pure]

theorem call_bind {E R β : Type} (answer : List E → R) (ev : R → E) (f : R → Proc E β)
    (hist : List E) :
    (call answer ev >>= f) hist = f (answer hist) (hist ++ [ev (answer hist)]) := by
  simp [bind, Proc.bind, call]

theorem ite_proc {E α : Type} (c : Prop) [Decidable c] (m1 m2 : Proc E α)
    (hist : List E) :
    (if c then m1 else m2) hist = if c then m1 hist else m2 hist := by
  split <;> rfl

/-- The run of `main`, check by check. -/
theorem main_eq (env : Env Err Created Stat) (inv : Invocation)
    (hist : List (Event Err Created Stat)) :
    main env inv hist =
      if inv.servers = ascii "" then
        ⟨hist ++ preamble inv ++ [.logFatal
          (ascii "Expected comma delimited list of servers via --servers")], none⟩
      else if inv.command.length = 0 then
        ⟨hist ++ preamble inv ++ [.logFatal
          (ascii "Expected command (-c) (exists|get|ls|lsr|create|creater|set|delete)")],
          none⟩
      else if inv.args.length < 1 then
        ⟨hist ++ preamble inv ++ [.logFatal (ascii "Expected path argument")], none⟩
      else if HasSuffix (flagArg inv.args 0) (ascii "/") then
        ⟨hist ++ preamble inv ++ [.logFatal (ascii "Path must not end with '/'")], none⟩
      else if inv.command = ascii "creater" then
        dispatch env inv (flagArg inv.args 0) (ascii "create") true (hist ++ start inv)
      else
        dispatch env inv (flagArg inv.args 0) inv.command inv.force
          (hist ++ start inv) := by
  have hs : (Split inv.servers (ascii ",")).length ≠ 0 := by
    simp [Split, splitScan_ne_nil]
  unfold main
  simp -zeta only [callExit_bind, pure_bind_proc, logFatal]
  simp only [call_bind, ite_proc, logSetLevel, logSetPrintStackTrace, logInfo,
    zkSetServers, callExit]
  cases hv : inv.verbose <;> cases hd : inv.debug <;> cases hst : inv.stack <;>
    simp [start, preamble, hs, hv, hd, hst]

theorem pure_apply {E α : Type} (a : α) (hist : List E) :
    (pure a : Proc E α) hist = ⟨hist, some a⟩ := rfl

theorem call_apply {E R : Type} (answer : List E → R) (ev : R → E) (hist : List E) :
    call answer ev hist = ⟨hist ++ [ev (answer hist)], some (answer hist)⟩ := rfl

/-! ## The command switch, command by command -/

theorem dispatch_exists (env : Env Err Created Stat) (inv : Invocation)
    (path : GoString) (force : Bool) (hist : List (Event Err Created Stat)) :
    dispatch env inv path (ascii "exists") force hist =
      if (env.Exists hist path).2.isNone && (env.Exists hist path).1 then
        ⟨hist ++ [.zkExists path (env.Exists hist path).1 (env.Exists hist path).2,
          .outputPrintString (ascii "true") inv.format], some ()⟩
      else
        ⟨hist ++ [.zkExists path (env.Exists hist path).1 (env.Exists hist path).2,
          .logFatale (env.Exists hist path).2], none⟩ := by
  unfold dispatch
  simp -zeta only [callExit_bind, pure_bind_proc, logFatal, logFatale, logFatalf]
  simp only [call_bind, call_apply, pure_apply, ite_proc, logInfo, logInfof, zkExists, zkGet,
    zkChildren, zkChildrenRecursive, zkCreate, zkSet, zkSetWithVersionUpgrade, zkDelete,
    ioutilReadFile, outputPrintString, outputPrintStringArray, callExit]
  simp +decide

theorem dispatch_get (env : Env Err Created Stat) (inv : Invocation)
    (path : GoString) (force : Bool) (hist : List (Event Err Created Stat)) :
    dispatch env inv path (ascii "get") force hist =
      if (env.Get hist path).2.isNone then
        ⟨hist ++ [.zkGet path (env.Get hist path).1 (env.Get hist path).2,
          .outputPrintString (env.Get hist path).1 inv.format], some ()⟩
      else
        ⟨hist ++ [.zkGet path (env.Get hist path).1 (env.Get hist path).2,
          .logFatale (env.Get hist path).2], none⟩ := by
  unfold dispatch
  simp -zeta only [callExit_bind, pure_bind_proc, logFatal, logFatale, logFatalf]
  simp only [call_bind, call_apply, pure_apply, ite_proc, logInfo, logInfof, zkExists, zkGet,
    zkChildren, zkChildrenRecursive, zkCreate, zkSet, zkSetWithVersionUpgrade, zkDelete,
    ioutilReadFile, outputPrintString, outputPrintStringArray, callExit]
  simp +decide

theorem dispatch_ls (env : Env Err Created Stat) (inv : Invocation)
    (path : GoString) (force : Bool) (hist : List (Event Err Created Stat)) :
    dispatch env inv path (ascii "ls") force hist =
      if (env.Children hist path).2.isNone then
        ⟨hist ++ [.zkChildren path (env.Children hist path).1 (env.Children hist path).2,
          .outputPrintStringArray (env.Children hist path).1 inv.format], some ()⟩
      else
        ⟨hist ++ [.zkChildren path (env.Children hist path).1 (env.Children hist path).2,
          .logFatale (env.Children hist path).2], none⟩ := by
  unfold dispatch
  simp -zeta only [callExit_bind, pure_bind_proc, logFatal, logFatale, logFatalf]
  simp only [call_bind, call_apply, pure_apply, ite_proc, logInfo, logInfof, zkExists, zkGet,
    zkChildren, zkChildrenRecursive, zkCreate, zkSet, zkSetWithVersionUpgrade, zkDelete,
    ioutilReadFile, outputPrintString, outputPrintStringArray, callExit]
  simp +decide

theorem dispatch_lsr (env : Env Err Created Stat) (inv : Invocation)
    (path : GoString) (force : Bool) (hist : List (Event Err Created Stat)) :
    dispatch env inv path (ascii "lsr") force hist =
      if (env.ChildrenRecursive hist path).2.isNone then
        ⟨hist ++ [.zkChildrenRecursive path (env.ChildrenRecursive hist path).1
            (env.ChildrenRecursive hist path).2,
          .outputPrintStringArray (env.ChildrenRecursive hist path).1 inv.format],
          some ()⟩
      else
        ⟨hist ++ [.zkChildrenRecursive path (env.ChildrenRecursive hist path).1
            (env.ChildrenRecursive hist path).2,
          .logFatale (env.ChildrenRecursive hist path).2], none⟩ := by
  unfold dispatch
  simp -zeta only [callExit_bind, pure_bind_proc, logFatal, logFatale, logFatalf]
  simp only [call_bind, call_apply, pure_apply, ite_proc, logInfo, logInfof, zkExists, zkGet,
    zkChildren, zkChildrenRecursive, zkCreate, zkSet, zkSetWithVersionUpgrade, zkDelete,
    ioutilReadFile, outputPrintString, outputPrintStringArray, callExit]
  simp +decide

theorem dispatch_create (env : Env Err Created Stat) (inv : Invocation)
    (path : GoString) (force : Bool) (hist : List (Event Err Created Stat)) :
    dispatch env inv path (ascii "create") force hist =
      if inv.input_file.length ≠ 0 then
        if (fileRead env inv hist).2.isSome then
          ⟨afterRead env inv hist ++ [.logFatale (fileRead env inv hist).2], none⟩
        else
          writeStep (afterRead env inv hist)
            (fun h => env.Create h path (fileRead env inv hist).1 force)
            (fun r err => .zkCreate path (fileRead env inv hist).1 force r err)
            (fun r => .logInfof (ascii "Created %+v") (.created r))
      else if inv.args.length < 2 then
        ⟨hist ++ [.logFatal (ascii "Expected data argument")], none⟩
      else
        writeStep hist (fun h => env.Create h path (flagArg inv.args 1) force)
          (fun r err => .zkCreate path (flagArg inv.args 1) force r err)
          (fun r => .logInfof (ascii "Created %+v") (.created r)) := by
  unfold dispatch
  simp -zeta only [callExit_bind, pure_bind_proc, logFatal, logFatale, logFatalf]
  simp only [call_bind, call_apply, pure_apply, ite_proc, logInfo, logInfof, zkExists, zkGet,
    zkChildren, zkChildrenRecursive, zkCreate, zkSet, zkSetWithVersionUpgrade, zkDelete,
    ioutilReadFile, outputPrintString, outputPrintStringArray, callExit]
  simp +decide [writeStep, afterRead, afterInfo, fileRead]

theorem dispatch_set (env : Env Err Created Stat) (inv : Invocation)
    (path : GoString) (force : Bool) (hist : List (Event Err Created Stat)) :
    dispatch env inv path (ascii "set") force hist =
      if inv.input_file.length ≠ 0 then
        if (fileRead env inv hist).2.isSome then
          ⟨afterRead env inv hist ++ [.logFatale (fileRead env inv hist).2], none⟩
        else
          writeStep (afterRead env inv hist)
            (fun h => env.SetWithVersionUpgrade h path (fileRead env inv hist).1)
            (fun r err => .zkSetWithVersionUpgrade path (fileRead env inv hist).1 r err)
            (fun r => .logInfof (ascii "Set %+v") (.stat r))
      else if inv.args.length < 2 then
        ⟨hist ++ [.logFatal (ascii "Expected data argument")], none⟩
      else
        writeStep hist (fun h => env.Set h path (flagArg inv.args 1))
          (fun r err => .zkSet path (flagArg inv.args 1) r err)
          (fun r => .logInfof (ascii "Set %+v") (.stat r)) := by
  unfold dispatch
  simp -zeta only [callExit_bind, pure_bind_proc, logFatal, logFatale, logFatalf]
  simp only [call_bind, call_apply, pure_apply, ite_proc, logInfo, logInfof, zkExists, zkGet,
    zkChildren, zkChildrenRecursive, zkCreate, zkSet, zkSetWithVersionUpgrade, zkDelete,
    ioutilReadFile, outputPrintString, outputPrintStringArray, callExit]
  simp +decide [writeStep, afterRead, afterInfo, fileRead]

theorem dispatch_delete (env : Env Err Created Stat) (inv : Invocation)
    (path : GoString) (force : Bool) (hist : List (Event Err Created Stat)) :
    dispatch env inv path (ascii "delete") force hist =
      if (env.Delete hist path).isSome then
        ⟨hist ++ [.zkDelete path (env.Delete hist path),
          .logFatale (env.Delete hist path)], none⟩
      else
        ⟨hist ++ [.zkDelete path (env.Delete hist path)], some ()⟩ := by
  unfold dispatch
  simp -zeta only [callExit_bind, pure_bind_proc, logFatal, logFatale, logFatalf]
  simp only [call_bind, call_apply, pure_apply, ite_proc, logInfo, logInfof, zkExists, zkGet,
    zkChildren, zkChildrenRecursive, zkCreate, zkSet, zkSetWithVersionUpgrade, zkDelete,
    ioutilReadFile, outputPrintString, outputPrintStringArray, callExit]
  simp +decide

theorem dispatch_unknown (env : Env Err Created Stat) (inv : Invocation)
    (path command : GoString) (force : Bool) (hist : List (Event Err Created Stat))
    (h : Unknown command) :
    dispatch env inv path command force hist =
      ⟨hist ++ [.logFatalf (ascii "Unknown command: %s") command], none⟩ := by
  obtain ⟨h1, h2, h3, h4, h5, h6, h7⟩ := h
  unfold dispatch
  simp -zeta only [callExit_bind, pure_bind_proc, logFatal, logFatale, logFatalf]
  simp only [call_bind, call_apply, pure_apply, ite_proc, logInfo, logInfof, zkExists, zkGet,
    zkChildren, zkChildrenRecursive, zkCreate, zkSet, zkSetWithVersionUpgrade, zkDelete,
    ioutilReadFile, outputPrintString, outputPrintStringArray, callExit]
  simp only [if_neg h1, if_neg h2, if_neg h3, if_neg h4, if_neg h5, if_neg h6, if_neg h7]

theorem command_cases (command : GoString) :
    command = ascii "exists" ∨ command = ascii "get" ∨ command = ascii "ls" ∨
      command = ascii "lsr" ∨ command = ascii "create" ∨ command = ascii "set" ∨
      command = ascii "delete" ∨ Unknown command := by
  unfold Unknown
  tauto

theorem run_valid (env : Env Err Created Stat) (inv : Invocation) (hv : Valid inv) :
    run env inv =
      dispatch env inv (flagArg inv.args 0) (switchCommand inv) (switchForce inv)
        (start inv) := by
  obtain ⟨h1, h2, h3, h4⟩ := hv
  have h1' : ¬ inv.servers = ascii "" := h1
  have h2' : ¬ inv.command.length = 0 := by simpa using h2
  have h3' : ¬ inv.args.length < 1 := by
    cases h : inv.args
    · exact absurd h h3
    · simp
  have h4' : ¬ HasSuffix (flagArg inv.args 0) (ascii "/") = true := by simp [h4]
  simp only [run, main_eq, if_neg h1', if_neg h2', if_neg h3', if_neg h4', switchCommand,
    switchForce, List.nil_append]
  split <;> rfl

theorem run_invalid (env : Env Err Created Stat) (inv : Invocation) (hv : ¬ Valid inv) :
    ∃ msg, run env inv = ⟨preamble inv ++ [.logFatal msg], none⟩ := by
  simp only [run, main_eq, List.nil_append]
  split_ifs with h1 h2 h3 h4 h5
  · exact ⟨_, rfl⟩
  · exact ⟨_, rfl⟩
  · exact ⟨_, rfl⟩
  · exact ⟨_, rfl⟩
  · exfalso
    apply hv
    refine ⟨h1, ?_, ?_, by simpa using h4⟩
    · intro h; apply h2; simp [h]
    · intro h; apply h3; simp [h]
  · exfalso
    apply hv
    refine ⟨h1, ?_, ?_, by simpa using h4⟩
    · intro h; apply h2; simp [h]
    · intro h; apply h3; simp [h]

theorem nodeCalls_append (a b : List (Event Err Created Stat)) :
    nodeCalls (a ++ b) = nodeCalls a ++ nodeCalls b := by
  simp [nodeCalls]

theorem nodeCalls_preamble (inv : Invocation) :
    nodeCalls (preamble inv : List (Event Err Created Stat)) = [] := by
  cases hv : inv.verbose <;> cases hd : inv.debug <;> cases hst : inv.stack <;>
    simp [preamble, nodeCalls, Event.nodeCall, hv, hd, hst]

theorem nodeCalls_start (inv : Invocation) :
    nodeCalls (start inv : List (Event Err Created Stat)) = [] := by
  simp [start, nodeCalls_append, nodeCalls_preamble]
  simp [nodeCalls, Event.nodeCall]

theorem setServersCalls_preamble (inv : Invocation) :
    setServersCalls (preamble inv : List (Event Err Created Stat)) = [] := by
  cases hv : inv.verbose <;> cases hd : inv.debug <;> cases hst : inv.stack <;>
    simp [preamble, setServersCalls, Event.isSetServers, hv, hd, hst]

theorem outputCalls_append (a b : List (Event Err Created Stat)) :
    outputCalls (a ++ b) = outputCalls a ++ outputCalls b := by
  simp [outputCalls]

theorem outputCalls_preamble (inv : Invocation) :
    outputCalls (preamble inv : List (Event Err Created Stat)) = [] := by
  cases hv : inv.verbose <;> cases hd : inv.debug <;> cases hst : inv.stack <;>
    simp [preamble, outputCalls, Event.isOutput, hv, hd, hst]

theorem outputCalls_start (inv : Invocation) :
    outputCalls (start inv : List (Event Err Created Stat)) = [] := by
  simp [start, outputCalls_append, outputCalls_preamble]
  simp [outputCalls, Event.isOutput]

theorem failure_preamble (inv : Invocation) (ev : Event Err Created Stat)
    (h : ev ∈ (preamble inv : List (Event Err Created Stat))) : ev.failure = none := by
  cases hv : inv.verbose <;> cases hd : inv.debug <;> cases hst : inv.stack <;>
    simp [preamble, hv, hd, hst] at h <;>
    casesm* _ ∨ _ <;> subst_vars <;> rfl

theorem failure_start (inv : Invocation) (ev : Event Err Created Stat)
    (h : ev ∈ (start inv : List (Event Err Created Stat))) : ev.failure = none := by
  simp only [start, List.mem_append, List.mem_singleton] at h
  rcases h with h | h
  · exact failure_preamble inv ev h
  · simp [h, Event.failure]

theorem nodeCalls_afterRead (env : Env Err Created Stat) (inv : Invocation)
    (hist : List (Event Err Created Stat)) :
    nodeCalls (afterRead env inv hist) = nodeCalls hist := by
  simp [afterRead, afterInfo, nodeCalls, Event.nodeCall]

theorem outputCalls_afterRead (env : Env Err Created Stat) (inv : Invocation)
    (hist : List (Event Err Created Stat)) :
    outputCalls (afterRead env inv hist) = outputCalls hist := by
  simp [afterRead, afterInfo, outputCalls, Event.isOutput]

/-! ## The node operations called by the switch, command by command -/

theorem nodeCalls_dispatch_exists (env : Env Err Created Stat) (inv : Invocation)
    (path : GoString) (force : Bool) (hist : List (Event Err Created Stat)) :
    nodeCalls (dispatch env inv path (ascii "exists") force hist).trace =
      nodeCalls hist ++ [.Exists path] := by
  rw [dispatch_exists]
  split <;> simp [nodeCalls, Event.nodeCall]

theorem nodeCalls_dispatch_get (env : Env Err Created Stat) (inv : Invocation)
    (path : GoString) (force : Bool) (hist : List (Event Err Created Stat)) :
    nodeCalls (dispatch env inv path (ascii "get") force hist).trace =
      nodeCalls hist ++ [.Get path] := by
  rw [dispatch_get]
  split <;> simp [nodeCalls, Event.nodeCall]

theorem nodeCalls_dispatch_ls (env : Env Err Created Stat) (inv : Invocation)
    (path : GoString) (force : Bool) (hist : List (Event Err Created Stat)) :
    nodeCalls (dispatch env inv path (ascii "ls") force hist).trace =
      nodeCalls hist ++ [.Children path] := by
  rw [dispatch_ls]
  split <;> simp [nodeCalls, Event.nodeCall]

theorem nodeCalls_dispatch_lsr (env : Env Err Created Stat) (inv : Invocation)
    (path : GoString) (force : Bool) (hist : List (Event Err Created Stat)) :
    nodeCalls (dispatch env inv path (ascii "lsr") force hist).trace =
      nodeCalls hist ++ [.ChildrenRecursive path] := by
  rw [dispatch_lsr]
  split <;> simp [nodeCalls, Event.nodeCall]

theorem nodeCalls_dispatch_delete (env : Env Err Created Stat) (inv : Invocation)
    (path : GoString) (force : Bool) (hist : List (Event Err Created Stat)) :
    nodeCalls (dispatch env inv path (ascii "delete") force hist).trace =
      nodeCalls hist ++ [.Delete path] := by
  rw [dispatch_delete]
  split <;> simp [nodeCalls, Event.nodeCall]

theorem nodeCalls_dispatch_unknown (env : Env Err Created Stat) (inv : Invocation)
    (path command : GoString) (force : Bool) (hist : List (Event Err Created Stat))
    (h : Unknown command) :
    nodeCalls (dispatch env inv path command force hist).trace = nodeCalls hist := by
  rw [dispatch_unknown env inv path command force hist h]
  simp [nodeCalls, Event.nodeCall]

theorem nodeCalls_dispatch_create (env : Env Err Created Stat) (inv : Invocation)
    (path : GoString) (force : Bool) (hist : List (Event Err Created Stat)) :
    nodeCalls (dispatch env inv path (ascii "create") force hist).trace =
      nodeCalls hist ++
        if inv.input_file.length ≠ 0 then
          if (fileRead env inv hist).2.isSome then []
          else [.Create path (fileRead env inv hist).1 force]
        else if inv.args.length < 2 then []
        else [.Create path (flagArg inv.args 1) force] := by
  rw [dispatch_create]
  split_ifs
  · simp [nodeCalls_append, nodeCalls_afterRead]
    simp [nodeCalls, Event.nodeCall]
  · unfold writeStep
    split <;> simp [nodeCalls_append, nodeCalls_afterRead] <;>
      simp [nodeCalls, Event.nodeCall]
  · simp [nodeCalls_append]
    simp [nodeCalls, Event.nodeCall]
  · unfold writeStep
    split <;> simp [nodeCalls_append] <;> simp [nodeCalls, Event.nodeCall]

theorem nodeCalls_dispatch_set (env : Env Err Created Stat) (inv : Invocation)
    (path : GoString) (force : Bool) (hist : List (Event Err Created Stat)) :
    nodeCalls (dispatch env inv path (ascii "set") force hist).trace =
      nodeCalls hist ++
        if inv.input_file.length ≠ 0 then
          if (fileRead env inv hist).2.isSome then []
          else [.SetWithVersionUpgrade path (fileRead env inv hist).1]
        else if inv.args.length < 2 then []
        else [.Set path (flagArg inv.args 1)] := by
  rw [dispatch_set]
  split_ifs
  · simp [nodeCalls_append, nodeCalls_afterRead]
    simp [nodeCalls, Event.nodeCall]
  · unfold writeStep
    split <;> simp [nodeCalls_append, nodeCalls_afterRead] <;>
      simp [nodeCalls, Event.nodeCall]
  · simp [nodeCalls_append]
    simp [nodeCalls, Event.nodeCall]
  · unfold writeStep
    split <;> simp [nodeCalls_append] <;> simp [nodeCalls, Event.nodeCall]

theorem dispatch_congr (env : Env Err Created Stat) (inv1 inv2 : Invocation)
    (hf : inv1.input_file = inv2.input_file) (hfmt : inv1.format = inv2.format)
    (ha : inv1.args = inv2.args) (path command : GoString) (force : Bool) :
    dispatch env inv1 path command force = dispatch env inv2 path command force := by
  unfold dispatch
  rw [hf, hfmt, ha]

/-! ## A failed call stops the run -/

theorem stopsAt_pair (hist : List (Event Err Created Stat)) (a : Event Err Created Stat)
    (err : Option Err) (hh : ∀ x ∈ hist, x.failure = none) (hn : nodeCalls hist = [])
    (ho : outputCalls hist = []) (ha : a.failure = err) (hao : a.isOutput = false)
    (ev : Event Err Created Stat) (e : Err)
    (hev : ev ∈ hist ++ [a, .logFatale err]) (hfail : ev.failure = some e) :
    StopsAt ⟨hist ++ [a, .logFatale err], none⟩ ev e := by
  have hev' : ev = a := by
    simp only [List.mem_append, List.mem_cons, List.mem_singleton, List.not_mem_nil,
      or_false] at hev
    rcases hev with h | h | h
    · rw [hh ev h] at hfail; cases hfail
    · exact h
    · rw [h] at hfail; cases hfail
  subst hev'
  have herr : err = some e := by rw [← ha, hfail]
  subst herr
  refine ⟨rfl, ⟨hist, rfl⟩, ?_, ?_⟩
  · have hf : (Event.logFatale (some e) : Event Err Created Stat).isOutput = false := rfl
    simp [outputCalls_append, ho]
    simp [outputCalls, List.filter_cons, hao, hf]
  · have hf : (Event.logFatale (some e) : Event Err Created Stat).nodeCall = none := rfl
    simp [nodeCalls_append, hn]
    simp [nodeCalls, List.filterMap_cons, hf]

theorem no_failure_pair (hist : List (Event Err Created Stat)) (a b : Event Err Created Stat)
    (hh : ∀ x ∈ hist, x.failure = none) (ha : a.failure = none) (hb : b.failure = none)
    (ev : Event Err Created Stat) (e : Err)
    (hev : ev ∈ hist ++ [a, b]) (hfail : ev.failure = some e) : False := by
  simp only [List.mem_append, List.mem_cons, List.mem_singleton, List.not_mem_nil,
    or_false] at hev
  rcases hev with h | h | h
  · rw [hh ev h] at hfail; cases hfail
  · rw [h, ha] at hfail; cases hfail
  · rw [h, hb] at hfail; cases hfail

theorem no_failure_single (hist : List (Event Err Created Stat))
    (a : Event Err Created Stat)
    (hh : ∀ x ∈ hist, x.failure = none) (ha : a.failure = none)
    (ev : Event Err Created Stat) (e : Err)
    (hev : ev ∈ hist ++ [a]) (hfail : ev.failure = some e) : False := by
  simp only [List.mem_append, List.mem_singleton] at hev
  rcases hev with h | h
  · rw [hh ev h] at hfail; cases hfail
  · rw [h, ha] at hfail; cases hfail

theorem failure_afterInfo (inv : Invocation) (hist : List (Event Err Created Stat))
    (hh : ∀ x ∈ hist, x.failure = none) : ∀ x ∈ afterInfo inv hist, x.failure = none := by
  intro x hx
  simp only [afterInfo, List.mem_append, List.mem_singleton] at hx
  rcases hx with h | h
  · exact hh x h
  · rw [h]; rfl

theorem failure_afterRead (env : Env Err Created Stat) (inv : Invocation)
    (hist : List (Event Err Created Stat)) (hh : ∀ x ∈ hist, x.failure = none)
    (hr : (fileRead env inv hist).2 = none) :
    ∀ x ∈ afterRead env inv hist, x.failure = none := by
  intro x hx
  simp only [afterRead, List.mem_append, List.mem_singleton] at hx
  rcases hx with h | h
  · exact failure_afterInfo inv hist hh x h
  · rw [h]; exact hr

theorem nodeCalls_afterInfo (inv : Invocation) (hist : List (Event Err Created Stat)) :
    nodeCalls (afterInfo inv hist) = nodeCalls hist := by
  simp [afterInfo, nodeCalls, Event.nodeCall]

theorem outputCalls_afterInfo (inv : Invocation) (hist : List (Event Err Created Stat)) :
    outputCalls (afterInfo inv hist) = outputCalls hist := by
  simp [afterInfo, outputCalls, Event.isOutput]

theorem option_eq_none_of_not_isSome {α : Type} (o : Option α) (h : ¬ o.isSome = true) :
    o = none := by
  cases o with
  | none => rfl
  | some a => simp at h

theorem option_eq_none_of_isNone {α : Type} (o : Option α) (h : o.isNone = true) :
    o = none := by
  cases o with
  | none => rfl
  | some a => simp at h

theorem writeStep_stops {R : Type} (hist : List (Event Err Created Stat))
    (op : List (Event Err Created Stat) → R × Option Err)
    (mk : R → Option Err → Event Err Created Stat)
    (ok : R → Event Err Created Stat)
    (hh : ∀ x ∈ hist, x.failure = none) (hn : nodeCalls hist = [])
    (ho : outputCalls hist = [])
    (hmk : ∀ r err, (mk r err).failure = err) (hmko : ∀ r err, (mk r err).isOutput = false)
    (hok : ∀ r, (ok r).failure = none)
    (ev : Event Err Created Stat) (e : Err)
    (hev : ev ∈ (writeStep hist op mk ok).trace) (hfail : ev.failure = some e) :
    StopsAt (writeStep hist op mk ok) ev e := by
  unfold writeStep at hev ⊢
  split_ifs at hev ⊢ with h
  · exfalso
    refine no_failure_pair hist _ _ hh ?_ (hok _) ev e hev hfail
    rw [hmk]
    exact option_eq_none_of_isNone _ h
  · exact stopsAt_pair hist _ _ hh hn ho (hmk _ _) (hmko _ _) ev e hev hfail

theorem dispatch_stops (env : Env Err Created Stat) (inv : Invocation)
    (path command : GoString) (force : Bool) (hist : List (Event Err Created Stat))
    (hh : ∀ x ∈ hist, x.failure = none) (hn : nodeCalls hist = [])
    (ho : outputCalls hist = []) (ev : Event Err Created Stat) (e : Err)
    (hev : ev ∈ (dispatch env inv path command force hist).trace)
    (hfail : ev.failure = some e) :
    StopsAt (dispatch env inv path command force hist) ev e := by
  rcases command_cases command with hc | hc | hc | hc | hc | hc | hc | hc
  · subst hc
    rw [dispatch_exists] at hev ⊢
    split_ifs at hev ⊢ with h
    · exfalso
      refine no_failure_pair hist _ _ hh ?_ ?_ ev e hev hfail
      · simp only [Bool.and_eq_true] at h
        exact option_eq_none_of_isNone _ h.1
      · rfl
    · refine stopsAt_pair hist _ _ hh hn ho ?_ ?_ ev e hev hfail <;> rfl
  · subst hc
    rw [dispatch_get] at hev ⊢
    split_ifs at hev ⊢ with h
    · exfalso
      refine no_failure_pair hist _ _ hh ?_ ?_ ev e hev hfail
      · exact option_eq_none_of_isNone _ h
      · rfl
    · refine stopsAt_pair hist _ _ hh hn ho ?_ ?_ ev e hev hfail <;> rfl
  · subst hc
    rw [dispatch_ls] at hev ⊢
    split_ifs at hev ⊢ with h
    · exfalso
      refine no_failure_pair hist _ _ hh ?_ ?_ ev e hev hfail
      · exact option_eq_none_of_isNone _ h
      · rfl
    · refine stopsAt_pair hist _ _ hh hn ho ?_ ?_ ev e hev hfail <;> rfl
  · subst hc
    rw [dispatch_lsr] at hev ⊢
    split_ifs at hev ⊢ with h
    · exfalso
      refine no_failure_pair hist _ _ hh ?_ ?_ ev e hev hfail
      · exact option_eq_none_of_isNone _ h
      · rfl
    · refine stopsAt_pair hist _ _ hh hn ho ?_ ?_ ev e hev hfail <;> rfl
  · subst hc
    rw [dispatch_create] at hev ⊢
    split_ifs at hev ⊢ with h1 h2 h3
    · have hshape : afterRead env inv hist ++ [Event.logFatale (fileRead env inv hist).2] =
          afterInfo inv hist ++ [Event.ioutilReadFile inv.input_file
            (fileRead env inv hist).1 (fileRead env inv hist).2,
            Event.logFatale (fileRead env inv hist).2] := by
        simp [afterRead]
      rw [hshape] at hev ⊢
      refine stopsAt_pair _ _ _ (failure_afterInfo inv hist hh) ?_ ?_ ?_ ?_ ev e hev hfail
      · rw [nodeCalls_afterInfo, hn]
      · rw [outputCalls_afterInfo, ho]
      · rfl
      · rfl
    · refine writeStep_stops _ _ _ _
        (failure_afterRead env inv hist hh (option_eq_none_of_not_isSome _ h2)) ?_ ?_
        ?_ ?_ ?_ ev e hev hfail
      · rw [nodeCalls_afterRead, hn]
      · rw [outputCalls_afterRead, ho]
      · intros; rfl
      · intros; rfl
      · intros; rfl
    · exact (no_failure_single hist _ hh (by rfl) ev e hev hfail).elim
    · refine writeStep_stops _ _ _ _ hh hn ho ?_ ?_ ?_ ev e hev hfail <;> intros <;> rfl
  · subst hc
    rw [dispatch_set] at hev ⊢
    split_ifs at hev ⊢ with h1 h2 h3
    · have hshape : afterRead env inv hist ++ [Event.logFatale (fileRead env inv hist).2] =
          afterInfo inv hist ++ [Event.ioutilReadFile inv.input_file
            (fileRead env inv hist).1 (fileRead env inv hist).2,
            Event.logFatale (fileRead env inv hist).2] := by
        simp [afterRead]
      rw [hshape] at hev ⊢
      refine stopsAt_pair _ _ _ (failure_afterInfo inv hist hh) ?_ ?_ ?_ ?_ ev e hev hfail
      · rw [nodeCalls_afterInfo, hn]
      · rw [outputCalls_afterInfo, ho]
      · rfl
      · rfl
    · refine writeStep_stops _ _ _ _
        (failure_afterRead env inv hist hh (option_eq_none_of_not_isSome _ h2)) ?_ ?_
        ?_ ?_ ?_ ev e hev hfail
      · rw [nodeCalls_afterRead, hn]
      · rw [outputCalls_afterRead, ho]
      · intros; rfl
      · intros; rfl
      · intros; rfl
    · exact (no_failure_single hist _ hh (by rfl) ev e hev hfail).elim
    · refine writeStep_stops _ _ _ _ hh hn ho ?_ ?_ ?_ ev e hev hfail <;> intros <;> rfl
  · subst hc
    rw [dispatch_delete] at hev ⊢
    split_ifs at hev ⊢ with h
    · refine stopsAt_pair hist _ _ hh hn ho ?_ ?_ ev e hev hfail <;> rfl
    · exfalso
      refine no_failure_single hist _ hh ?_ ev e hev hfail
      exact option_eq_none_of_not_isSome _ h
  · rw [dispatch_unknown env inv path command force hist hc] at hev
    exact (no_failure_single hist _ hh (by rfl) ev e hev hfail).elim

end Unfold

/-! ## The traversal of a tree -/

section Traversal

theorem joinRel_single (rel : Option GoString) (n : Name) :
    joinRel rel [n] = childRelative rel n := by
  cases rel <;> rfl

theorem joinRel_cons (rel : Option GoString) (n : Name) (p : Path) (hp : p ≠ []) :
    joinRel (some (childRelative rel n)) p = joinRel rel (n :: p) := by
  cases p with
  | nil => exact absurd rfl hp
  | cons m r =>
    cases rel with
    | none => simp [joinRel, childRelative, joinSegments]
    | some s => simp [joinRel, childRelative, joinSegments, List.append_assoc]

theorem preorder_ne_nil (S : Tree) : ∀ p ∈ S.preorder, p ≠ [] := by
  induction S with
  | nil => intro p hp; cases hp
  | node n sub rest _ ihr =>
    intro p hp
    simp only [Tree.preorder, List.cons_append, List.mem_cons, List.mem_append,
      List.mem_map] at hp
    rcases hp with h | ⟨q, _, h⟩ | h
    · rw [h]; simp
    · rw [← h]; simp
    · exact ihr p h

theorem resolve_append (T : Tree) (p q : Path) :
    T.resolve (p ++ q) = (T.resolve p).bind (fun t => t.resolve q) := by
  induction p generalizing T with
  | nil => rfl
  | cons n p ih =>
    simp only [List.cons_append, Tree.resolve]
    cases T.find n with
    | none => rfl
    | some sub => exact ih sub

theorem wellFormed_find (T : Tree) (hwf : T.wellFormed = true) (n : Name) (sub : Tree)
    (h : T.find n = some sub) : sub.wellFormed = true := by
  induction T with
  | nil => cases h
  | node m s rest _ ihr =>
    simp only [Tree.wellFormed, Bool.and_eq_true] at hwf
    simp only [Tree.find] at h
    split at h
    · cases h; exact hwf.1.2
    · exact ihr hwf.2 h

theorem wellFormed_resolve (T : Tree) (hwf : T.wellFormed = true) (p : Path) (S : Tree)
    (h : T.resolve p = some S) : S.wellFormed = true := by
  induction p generalizing T with
  | nil => cases h; exact hwf
  | cons n p ih =>
    simp only [Tree.resolve] at h
    cases hf : T.find n with
    | none => rw [hf] at h; cases h
    | some sub =>
      rw [hf] at h
      exact ih sub (wellFormed_find T hwf n sub hf) h

theorem find_of_not_mem (T : Tree) (n : Name) (h : n ∉ T.names) : T.find n = none := by
  induction T with
  | nil => rfl
  | node m s rest _ ihr =>
    simp only [Tree.names, List.mem_cons, not_or] at h
    simp only [Tree.find]
    rw [if_neg (fun e => h.1 e.symm)]
    exact ihr h.2

/-- The loop over the children `R` (the children of a node, or the last ones of
them) when the recursion into each of them succeeds. -/
theorem forEachChild_ok {ε : Type} (visit : Name → Option (Except ε (List GoString)))
    (rel : Option GoString) (R : Tree)
    (hvisit : ∀ n sub, R.find n = some sub → visit n =
        some (.ok (sub.preorder.map (joinRel (some (childRelative rel n))))))
    (hwf : R.wellFormed = true) :
    forEachChild visit (childRelative rel) R.names =
      some (.ok (R.preorder.map (joinRel rel))) := by
  induction R with
  | nil => rfl
  | node n sub rest _ ihr =>
    simp only [Tree.wellFormed, Bool.and_eq_true, decide_eq_true_eq] at hwf
    obtain ⟨⟨⟨_, hn⟩, _⟩, hwr⟩ := hwf
    have h1 : visit n =
        some (.ok (sub.preorder.map (joinRel (some (childRelative rel n))))) :=
      hvisit n sub (by simp [Tree.find])
    have h2 := ihr (by
      intro m s hm
      have hmem : m ∈ rest.names := by
        by_contra hc
        rw [find_of_not_mem rest m hc] at hm
        cases hm
      have hne : n ≠ m := fun e => hn (e ▸ hmem)
      apply hvisit m s
      simp only [Tree.find, if_neg hne]
      exact hm) hwr
    have h3 : sub.preorder.map (joinRel (some (childRelative rel n))) =
        (sub.preorder.map (fun p => n :: p)).map (joinRel rel) := by
      rw [List.map_map]
      apply List.map_congr_left
      intro p hp
      exact joinRel_cons rel n p (preorder_ne_nil sub p hp)
    simp only [Tree.names, forEachChild, h1, h2, h3, Tree.preorder, List.map_cons,
      List.map_append, joinRel_single, List.cons_append]

theorem height_find (T : Tree) (n : Name) (sub : Tree) (h : T.find n = some sub) :
    sub.height < T.height := by
  induction T with
  | nil => cases h
  | node m s rest _ ihr =>
    simp only [Tree.find] at h
    simp only [Tree.height]
    split at h
    · cases h; omega
    · have := ihr h; omega

/-- The traversal of a well-formed tree, given fuel for its height, returns the
relative paths of the nodes below the start in pre-order. -/
theorem childrenRecursiveFrom_ok (T : Tree) (fuel : Nat) :
    ∀ (S : Tree) (path : Path) (rel : Option GoString), T.resolve path = some S →
      S.wellFormed = true → S.height < fuel →
      childrenRecursiveFrom T.listChildren fuel path rel =
        some (.ok (S.preorder.map (joinRel rel))) := by
  induction fuel with
  | zero => intro S path rel _ _ h; omega
  | succ fuel ih =>
    intro S path rel hS hwf hfuel
    simp only [childrenRecursiveFrom, Tree.listChildren, hS]
    apply forEachChild_ok _ rel S _ hwf
    intro n sub hfind
    apply ih sub (path ++ [n]) _ _ (wellFormed_find S hwf n sub hfind)
    · have := height_find S n sub hfind; omega
    · rw [resolve_append, hS]
      simp [Tree.resolve, hfind]

theorem head_mem_names_of_mem_preorder (S : Tree) (m : Name) (q : Path)
    (h : m :: q ∈ S.preorder) : m ∈ S.names := by
  induction S with
  | nil => cases h
  | node n sub rest _ ihr =>
    simp only [Tree.preorder, List.cons_append, List.mem_cons, List.mem_append,
      List.mem_map] at h
    simp only [Tree.names, List.mem_cons]
    rcases h with h | ⟨q', _, h⟩ | h
    · left; injection h
    · left; injection h with h1 _; exact h1.symm
    · right; exact ihr h

/-- The pre-order listing holds exactly the paths of the non-root descendants. -/
theorem mem_preorder_iff (S : Tree) (hwf : S.wellFormed = true) (p : Path) :
    p ∈ S.preorder ↔ S.isDescendant p := by
  induction S generalizing p with
  | nil =>
    simp only [Tree.preorder, List.not_mem_nil, Tree.isDescendant, false_iff, not_and]
    intro hp
    cases p with
    | nil => exact absurd rfl hp
    | cons m q => simp [Tree.resolve, Tree.find]
  | node n sub rest ihs ihr =>
    simp only [Tree.wellFormed, Bool.and_eq_true, decide_eq_true_eq] at hwf
    obtain ⟨⟨⟨_, hn⟩, hws⟩, hwr⟩ := hwf
    simp only [Tree.preorder, List.cons_append, List.mem_cons, List.mem_append,
      List.mem_map]
    constructor
    · rintro (h | ⟨q, hq, h⟩ | h)
      · subst h
        exact ⟨by simp, by simp [Tree.resolve, Tree.find]⟩
      · subst h
        refine ⟨by simp, ?_⟩
        simpa [Tree.resolve, Tree.find] using ((ihs hws q).1 hq).2
      · obtain ⟨hne, hres⟩ := (ihr hwr p).1 h
        refine ⟨hne, ?_⟩
        cases p with
        | nil => exact absurd rfl hne
        | cons m q =>
          have hm : m ∈ rest.names := head_mem_names_of_mem_preorder rest m q h
          have hnm : n ≠ m := fun e => hn (e ▸ hm)
          simpa [Tree.resolve, Tree.find, hnm] using hres
    · rintro ⟨hne, hres⟩
      cases p with
      | nil => exact absurd rfl hne
      | cons m q =>
        by_cases hnm : n = m
        · subst hnm
          simp only [Tree.resolve, Tree.find, if_true] at hres
          cases q with
          | nil => left; rfl
          | cons m2 q2 =>
            right; left
            exact ⟨m2 :: q2, (ihs hws _).2 ⟨by simp, hres⟩, rfl⟩
        · right; right
          apply (ihr hwr _).2
          refine ⟨by simp, ?_⟩
          simpa [Tree.resolve, Tree.find, hnm] using hres

theorem preorder_nodup (S : Tree) (hwf : S.wellFormed = true) : S.preorder.Nodup := by
  induction S with
  | nil => exact List.nodup_nil
  | node n sub rest ihs ihr =>
    simp only [Tree.wellFormed, Bool.and_eq_true, decide_eq_true_eq] at hwf
    obtain ⟨⟨⟨_, hn⟩, hws⟩, hwr⟩ := hwf
    simp only [Tree.preorder, List.cons_append, List.nodup_cons, List.mem_append,
      List.mem_map, not_or]
    refine ⟨⟨?_, ?_⟩, ?_⟩
    · rintro ⟨q, hq, h⟩
      injection h with _ h2
      exact preorder_ne_nil sub q hq h2
    · intro h
      exact hn (head_mem_names_of_mem_preorder rest n [] h)
    · rw [List.nodup_append]
      refine ⟨?_, ihr hwr, ?_⟩
      · exact (ihs hws).map (fun a b h => by injection h)
      · intro p hp1 hp2
        simp only [List.mem_map] at hp1
        obtain ⟨q, _, h⟩ := hp1
        subst h
        exact hn (head_mem_names_of_mem_preorder rest n q hp2)

/-- In the pre-order listing a node comes before each of its descendants. -/
theorem preorder_ancestor_first (S : Tree) (anc more : Path) (ha : anc ≠ [])
    (hm : more ≠ []) (h : anc ++ more ∈ S.preorder) :
    ∃ l1 l2, S.preorder = l1 ++ anc :: l2 ∧ anc ++ more ∈ l2 := by
  induction S generalizing anc with
  | nil => cases h
  | node n sub rest ihs ihr =>
    simp only [Tree.preorder, List.cons_append, List.mem_cons, List.mem_append,
      List.mem_map] at h
    cases anc with
    | nil => exact absurd rfl ha
    | cons a anc' =>
      rcases h with h | ⟨q, hq, h⟩ | h
      · exfalso
        simp only [List.cons_append, List.cons.injEq, List.append_eq_nil] at h
        exact hm h.2.2
      · simp only [List.cons_append, List.cons.injEq] at h
        obtain ⟨h1, h2⟩ := h
        subst h1
        subst h2
        cases anc' with
        | nil =>
          refine ⟨[], sub.preorder.map (fun p => n :: p) ++ rest.preorder, ?_, ?_⟩
          · simp [Tree.preorder]
          · simp only [List.mem_append, List.mem_map]
            left
            exact ⟨_, hq, rfl⟩
        | cons a2 anc2 =>
          obtain ⟨l1, l2, e, hin⟩ := ihs (a2 :: anc2) (by simp) hq
          refine ⟨[n] :: l1.map (fun p => n :: p),
            l2.map (fun p => n :: p) ++ rest.preorder, ?_, ?_⟩
          · simp [Tree.preorder, e]
          · simp only [List.mem_append, List.mem_map]
            left
            exact ⟨_, hin, rfl⟩
      · obtain ⟨l1, l2, e, hin⟩ := ihr (a :: anc') (by simp) h
        refine ⟨[n] :: sub.preorder.map (fun p => n :: p) ++ l1, l2, ?_, hin⟩
        simp [Tree.preorder, e]

theorem names_valid_of_mem_preorder (S : Tree) (hwf : S.wellFormed = true) (p : Path)
    (h : p ∈ S.preorder) : ∀ n ∈ p, (47 : UInt8) ∉ n := by
  induction S generalizing p with
  | nil => cases h
  | node n sub rest ihs ihr =>
    simp only [Tree.wellFormed, validName, Bool.and_eq_true, decide_eq_true_eq] at hwf
    obtain ⟨⟨⟨⟨_, hv⟩, _⟩, hws⟩, hwr⟩ := hwf
    simp only [Tree.preorder, List.cons_append, List.mem_cons, List.mem_append,
      List.mem_map] at h
    rcases h with h | ⟨q, hq, h⟩ | h
    · subst h
      intro m hm
      simp only [List.mem_singleton] at hm
      rw [hm]; exact hv
    · subst h
      intro m hm
      simp only [List.mem_cons] at hm
      rcases hm with hm | hm
      · rw [hm]; exact hv
      · exact ihs hws q hq m hm
    · exact ihr hwr p h

theorem ascii_slash : ascii "/" = [47] := by decide

theorem split_at_slash (a b x y : GoString) (ha : (47 : UInt8) ∉ a) (hb : (47 : UInt8) ∉ b)
    (h : a ++ 47 :: x = b ++ 47 :: y) : a = b ∧ x = y := by
  induction a generalizing b with
  | nil =>
    cases b with
    | nil => simpa using h
    | cons c b' =>
      simp only [List.nil_append, List.cons_append, List.cons.injEq] at h
      exact absurd (by simp [← h.1]) hb
  | cons c a' ih =>
    cases b with
    | nil =>
      simp only [List.nil_append, List.cons_append, List.cons.injEq] at h
      exact absurd (by simp [h.1]) ha
    | cons d b' =>
      simp only [List.cons_append, List.cons.injEq] at h
      have ha' : (47 : UInt8) ∉ a' := fun hc => ha (List.mem_cons_of_mem _ hc)
      have hb' : (47 : UInt8) ∉ b' := fun hc => hb (List.mem_cons_of_mem _ hc)
      obtain ⟨e1, e2⟩ := ih b' ha' hb' h.2
      exact ⟨by rw [h.1, e1], e2⟩

theorem joinSegments_cons_cons (n m : Name) (r : Path) :
    joinSegments (n :: m :: r) = n ++ 47 :: joinSegments (m :: r) := by
  simp [joinSegments, ascii_slash]

/-- Paths of segments without `/` are told apart by their strings. -/
theorem joinSegments_inj (p q : Path) (hp : p ≠ []) (hq : q ≠ [])
    (hvp : ∀ n ∈ p, (47 : UInt8) ∉ n) (hvq : ∀ n ∈ q, (47 : UInt8) ∉ n)
    (h : joinSegments p = joinSegments q) : p = q := by
  induction p generalizing q with
  | nil => exact absurd rfl hp
  | cons n p' ih =>
    cases q with
    | nil => exact absurd rfl hq
    | cons m q' =>
      have hn : (47 : UInt8) ∉ n := hvp n (by simp)
      have hm : (47 : UInt8) ∉ m := hvq m (by simp)
      cases p' with
      | nil =>
        cases q' with
        | nil => simpa [joinSegments] using h
        | cons m2 r2 =>
          rw [joinSegments_cons_cons] at h
          simp only [joinSegments] at h
          exact absurd (by rw [h]; simp) hn
      | cons n2 r =>
        cases q' with
        | nil =>
          rw [joinSegments_cons_cons] at h
          simp only [joinSegments] at h
          exact absurd (by rw [← h]; simp) hm
        | cons m2 r2 =>
          rw [joinSegments_cons_cons, joinSegments_cons_cons] at h
          obtain ⟨e1, e2⟩ := split_at_slash _ _ _ _ hn hm h
          have := ih (m2 :: r2) (by simp) (by simp)
            (fun x hx => hvp x (List.mem_cons_of_mem _ hx))
            (fun x hx => hvq x (List.mem_cons_of_mem _ hx)) e2
          rw [e1, this]

theorem joinSegments_append (p q : Path) (hp : p ≠ []) (hq : q ≠ []) :
    joinSegments (p ++ q) = joinSegments p ++ ascii "/" ++ joinSegments q := by
  induction p with
  | nil => exact absurd rfl hp
  | cons n p' ih =>
    cases p' with
    | nil =>
      cases q with
      | nil => exact absurd rfl hq
      | cons m r => simp [joinSegments]
    | cons n2 r =>
      have := ih (by simp)
      simp only [List.cons_append] at this ⊢
      simp only [joinSegments, this, List.append_assoc]

/-- The relative path of a descendant is its path string stripped of the root
prefix. -/
theorem stripRoot_pathString (root segs : Path) (hs : segs ≠ []) :
    stripRoot root (pathString (root ++ segs)) = joinSegments segs := by
  unfold stripRoot
  by_cases hr : root = []
  · subst hr
    simp [pathString, ascii_slash]
  · rw [if_neg hr]
    simp only [pathString, joinSegments_append root segs hr hs, ascii_slash]
    have : [47] ++ (joinSegments root ++ [47] ++ joinSegments segs) =
        ([47] ++ joinSegments root ++ [47]) ++ joinSegments segs := by
      simp
    rw [this, List.drop_left']
    simp

theorem height_resolve_le (T : Tree) (p : Path) (S : Tree) (h : T.resolve p = some S) :
    S.height ≤ T.height := by
  induction p generalizing T with
  | nil => cases h; exact Nat.le_refl _
  | cons n p ih =>
    simp only [Tree.resolve] at h
    cases hf : T.find n with
    | none => rw [hf] at h; cases h
    | some sub =>
      rw [hf] at h
      have h1 := ih sub h
      have h2 := height_find T n sub hf
      omega

theorem names_eq_nil (S : Tree) (h : S.names = []) : S = .nil := by
  cases S with
  | nil => rfl
  | node n sub rest => cases h

end Traversal

/-! ## Runs of `main` as a whole -/

section Runs

variable {Err Created Stat : Type}

theorem mem_start (inv : Invocation) (ev : Event Err Created Stat)
    (h : ev ∈ (start inv : List (Event Err Created Stat))) :
    (∃ l, ev = .logSetLevel l) ∨ (∃ b, ev = .logSetPrintStackTrace b) ∨
      (∃ m a, ev = .logInfo m a) ∨ (∃ s, ev = .zkSetServers s) := by
  cases hv : inv.verbose <;> cases hd : inv.debug <;> cases hst : inv.stack <;>
    simp [start, preamble, hv, hd, hst] at h <;>
    casesm* _ ∨ _ <;> subst_vars <;> simp

theorem switchCommand_eq (inv : Invocation) (x : GoString)
    (hx : switchCommand inv = x) (hne : x ≠ ascii "create") : inv.command = x := by
  unfold switchCommand at hx
  split at hx
  · exact absurd hx.symm hne
  · exact hx

theorem switchCommand_create (inv : Invocation)
    (hx : switchCommand inv = ascii "create") :
    inv.command = ascii "create" ∨ inv.command = ascii "creater" := by
  unfold switchCommand at hx
  split at hx
  · right; assumption
  · left; exact hx

/-- The node operations of a run: none, or the single one the switch selects for
the command, called with the first positional argument. -/
theorem nodeCalls_run (env : Env Err Created Stat) (inv : Invocation) :
    nodeCalls (mainTrace env inv) = [] ∨
      (Valid inv ∧ ∃ c, nodeCalls (mainTrace env inv) = [c] ∧
        c.path = flagArg inv.args 0 ∧ Matches inv.command c) := by
  by_cases hv : Valid inv
  · rw [mainTrace, run_valid env inv hv]
    rcases command_cases (switchCommand inv) with hc | hc | hc | hc | hc | hc | hc | hc
    · rw [hc, nodeCalls_dispatch_exists, nodeCalls_start]
      exact Or.inr ⟨hv, _, rfl, rfl, switchCommand_eq inv _ hc (by decide)⟩
    · rw [hc, nodeCalls_dispatch_get, nodeCalls_start]
      exact Or.inr ⟨hv, _, rfl, rfl, switchCommand_eq inv _ hc (by decide)⟩
    · rw [hc, nodeCalls_dispatch_ls, nodeCalls_start]
      exact Or.inr ⟨hv, _, rfl, rfl, switchCommand_eq inv _ hc (by decide)⟩
    · rw [hc, nodeCalls_dispatch_lsr, nodeCalls_start]
      exact Or.inr ⟨hv, _, rfl, rfl, switchCommand_eq inv _ hc (by decide)⟩
    · rw [hc, nodeCalls_dispatch_create, nodeCalls_start]
      split_ifs
      · exact Or.inl rfl
      · exact Or.inr ⟨hv, _, rfl, rfl, switchCommand_create inv hc⟩
      · exact Or.inl rfl
      · exact Or.inr ⟨hv, _, rfl, rfl, switchCommand_create inv hc⟩
    · rw [hc, nodeCalls_dispatch_set, nodeCalls_start]
      split_ifs
      · exact Or.inl rfl
      · exact Or.inr ⟨hv, _, rfl, rfl, switchCommand_eq inv _ hc (by decide)⟩
      · exact Or.inl rfl
      · exact Or.inr ⟨hv, _, rfl, rfl, switchCommand_eq inv _ hc (by decide)⟩
    · rw [hc, nodeCalls_dispatch_delete, nodeCalls_start]
      exact Or.inr ⟨hv, _, rfl, rfl, switchCommand_eq inv _ hc (by decide)⟩
    · rw [nodeCalls_dispatch_unknown env inv _ _ _ _ hc, nodeCalls_start]
      exact Or.inl rfl
  · left
    obtain ⟨msg, h⟩ := run_invalid env inv hv
    rw [mainTrace, h, nodeCalls_append, nodeCalls_preamble]
    simp [nodeCalls, Event.nodeCall]

theorem flagArg_zero_head (args : List GoString) (h : args ≠ []) :
    args.head? = some (flagArg args 0) := by
  cases args with
  | nil => exact absurd rfl h
  | cons a rest => simp [flagArg]

theorem switchCommand_of_ne (inv : Invocation) (h : inv.command ≠ ascii "creater") :
    switchCommand inv = inv.command := by
  simp [switchCommand, h]

theorem switchForce_of_ne (inv : Invocation) (h : inv.command ≠ ascii "creater") :
    switchForce inv = inv.force := by
  simp [switchForce, h]

theorem zkGet_not_mem_start (inv : Invocation) (p : GoString) (r : Bytes)
    (err : Option Err) :
    (Event.zkGet p r err : Event Err Created Stat) ∉ start inv := by
  intro h
  rcases mem_start inv _ h with ⟨_, h⟩ | ⟨_, h⟩ | ⟨_, _, h⟩ | ⟨_, h⟩ <;> cases h

theorem zkChildren_not_mem_start (inv : Invocation) (p : GoString) (r : List GoString)
    (err : Option Err) :
    (Event.zkChildren p r err : Event Err Created Stat) ∉ start inv := by
  intro h
  rcases mem_start inv _ h with ⟨_, h⟩ | ⟨_, h⟩ | ⟨_, _, h⟩ | ⟨_, h⟩ <;> cases h

theorem zkChildrenRecursive_not_mem_start (inv : Invocation) (p : GoString)
    (r : List GoString) (err : Option Err) :
    (Event.zkChildrenRecursive p r err : Event Err Created Stat) ∉ start inv := by
  intro h
  rcases mem_start inv _ h with ⟨_, h⟩ | ⟨_, h⟩ | ⟨_, _, h⟩ | ⟨_, h⟩ <;> cases h

theorem readFile_not_mem_start (inv : Invocation) (n : GoString) (r : Bytes)
    (err : Option Err) :
    (Event.ioutilReadFile n r err : Event Err Created Stat) ∉ start inv := by
  intro h
  rcases mem_start inv _ h with ⟨_, h⟩ | ⟨_, h⟩ | ⟨_, _, h⟩ | ⟨_, h⟩ <;> cases h

theorem readFile_mem_writeStep {R : Type} (hist : List (Event Err Created Stat))
    (op : List (Event Err Created Stat) → R × Option Err)
    (mk : R → Option Err → Event Err Created Stat)
    (ok : R → Event Err Created Stat) (n : GoString) (D : Bytes) (err : Option Err)
    (hmk : ∀ r e, mk r e ≠ .ioutilReadFile n D err)
    (hok : ∀ r, ok r ≠ .ioutilReadFile n D err)
    (h : Event.ioutilReadFile n D err ∈ (writeStep hist op mk ok).trace) :
    Event.ioutilReadFile n D err ∈ hist := by
  unfold writeStep at h
  split_ifs at h <;>
    simp only [List.mem_append, List.mem_cons, List.mem_singleton, List.not_mem_nil,
      or_false] at h <;>
    rcases h with h | h | h
  · exact h
  · exact absurd h.symm (hmk _ _)
  · exact absurd h.symm (hok _)
  · exact h
  · exact absurd h.symm (hmk _ _)
  · cases h

theorem readFile_mem_afterRead (env : Env Err Created Stat) (inv : Invocation)
    (hist : List (Event Err Created Stat)) (n : GoString) (D : Bytes) (err : Option Err)
    (hh : Event.ioutilReadFile n D err ∉ hist)
    (h : Event.ioutilReadFile n D err ∈ afterRead env inv hist) :
    fileRead env inv hist = (D, err) := by
  simp only [afterRead, afterInfo, List.mem_append, List.mem_singleton] at h
  rcases h with (h | h) | h
  · exact absurd h hh
  · cases h
  · injection h with _ h1 h2
    exact Prod.ext h1.symm h2.symm

/-- In a run of `create`, `creater` or `set`, the file read recorded in the trace is
the one `main` made. -/
theorem fileRead_of_mem (env : Env Err Created Stat) (inv : Invocation) (hv : Valid inv)
    (hc : switchCommand inv = ascii "create" ∨ switchCommand inv = ascii "set")
    (D : Bytes) (err : Option Err)
    (h : Event.ioutilReadFile inv.input_file D err ∈ mainTrace env inv) :
    inv.input_file.length ≠ 0 ∧ fileRead env inv (start inv) = (D, err) := by
  rw [mainTrace, run_valid env inv hv] at h
  rcases hc with hc | hc
  · rw [hc, dispatch_create] at h
    split_ifs at h with h1 h2 h3
    · refine ⟨h1, readFile_mem_afterRead env inv _ inv.input_file D err
        (readFile_not_mem_start inv _ _ _) ?_⟩
      simp only [List.mem_append, List.mem_singleton] at h
      rcases h with h | h
      · exact h
      · cases h
    · refine ⟨h1, readFile_mem_afterRead env inv _ inv.input_file D err
        (readFile_not_mem_start inv _ _ _) ?_⟩
      refine readFile_mem_writeStep _ _ _ _ inv.input_file D err ?_ ?_ h
      · intro r e he; cases he
      · intro r he; cases he
    · simp only [List.mem_append, List.mem_singleton] at h
      rcases h with h | h
      · exact absurd h (readFile_not_mem_start inv _ _ _)
      · cases h
    · exact absurd (readFile_mem_writeStep _ _ _ _ inv.input_file D err
        (by intro r e he; cases he)
        (by intro r he; cases he) h) (readFile_not_mem_start inv _ _ _)
  · rw [hc, dispatch_set] at h
    split_ifs at h with h1 h2 h3
    · refine ⟨h1, readFile_mem_afterRead env inv _ inv.input_file D err
        (readFile_not_mem_start inv _ _ _) ?_⟩
      simp only [List.mem_append, List.mem_singleton] at h
      rcases h with h | h
      · exact h
      · cases h
    · refine ⟨h1, readFile_mem_afterRead env inv _ inv.input_file D err
        (readFile_not_mem_start inv _ _ _) ?_⟩
      refine readFile_mem_writeStep _ _ _ _ inv.input_file D err ?_ ?_ h
      · intro r e he; cases he
      · intro r he; cases he
    · simp only [List.mem_append, List.mem_singleton] at h
      rcases h with h | h
      · exact absurd h (readFile_not_mem_start inv _ _ _)
      · cases h
    · exact absurd (readFile_mem_writeStep _ _ _ _ inv.input_file D err
        (by intro r e he; cases he)
        (by intro r he; cases he) h) (readFile_not_mem_start inv _ _ _)

theorem nodeCalls_create_valid (env : Env Err Created Stat) (inv : Invocation)
    (hv : Valid inv) (hc : inv.command = ascii "create") :
    nodeCalls (mainTrace env inv) =
      if inv.input_file.length ≠ 0 then
        if (fileRead env inv (start inv)).2.isSome then []
        else [.Create (flagArg inv.args 0) (fileRead env inv (start inv)).1 inv.force]
      else if inv.args.length < 2 then []
      else [.Create (flagArg inv.args 0) (flagArg inv.args 1) inv.force] := by
  have hne : inv.command ≠ ascii "creater" := by rw [hc]; decide
  rw [mainTrace, run_valid env inv hv, switchCommand_of_ne inv hne,
    switchForce_of_ne inv hne, hc, nodeCalls_dispatch_create, nodeCalls_start,
    List.nil_append]

theorem nodeCalls_set_valid (env : Env Err Created Stat) (inv : Invocation)
    (hv : Valid inv) (hc : inv.command = ascii "set") :
    nodeCalls (mainTrace env inv) =
      if inv.input_file.length ≠ 0 then
        if (fileRead env inv (start inv)).2.isSome then []
        else [.SetWithVersionUpgrade (flagArg inv.args 0) (fileRead env inv (start inv)).1]
      else if inv.args.length < 2 then []
      else [.Set (flagArg inv.args 0) (flagArg inv.args 1)] := by
  have hne : inv.command ≠ ascii "creater" := by rw [hc]; decide
  rw [mainTrace, run_valid env inv hv, switchCommand_of_ne inv hne, hc,
    nodeCalls_dispatch_set, nodeCalls_start, List.nil_append]

theorem nodeCalls_of_not_valid (env : Env Err Created Stat) (inv : Invocation)
    (hv : ¬ Valid inv) : nodeCalls (mainTrace env inv) = [] := by
  rcases nodeCalls_run env inv with h | ⟨h, _⟩
  · exact h
  · exact absurd h hv

theorem switchCommand_create_of (inv : Invocation) (hc : inv.command = ascii "create") :
    switchCommand inv = ascii "create" := by
  rw [switchCommand_of_ne inv (by rw [hc]; decide), hc]

theorem switchCommand_set_of (inv : Invocation) (hc : inv.command = ascii "set") :
    switchCommand inv = ascii "set" := by
  rw [switchCommand_of_ne inv (by rw [hc]; decide), hc]

theorem nodeCalls_create_switch (env : Env Err Created Stat) (inv : Invocation)
    (hv : Valid inv) (hc : switchCommand inv = ascii "create") :
    nodeCalls (mainTrace env inv) =
      if inv.input_file.length ≠ 0 then
        if (fileRead env inv (start inv)).2.isSome then []
        else [.Create (flagArg inv.args 0) (fileRead env inv (start inv)).1
          (switchForce inv)]
      else if inv.args.length < 2 then []
      else [.Create (flagArg inv.args 0) (flagArg inv.args 1) (switchForce inv)] := by
  rw [mainTrace, run_valid env inv hv, hc, nodeCalls_dispatch_create, nodeCalls_start,
    List.nil_append]

/-- With its data at hand, a write command calls its node operation. -/
theorem nodeCalls_write_given (env : Env Err Created Stat) (inv : Invocation)
    (hv : Valid inv)
    (hc : switchCommand inv = ascii "create" ∨ switchCommand inv = ascii "set")
    (hd : DataGiven inv (mainTrace env inv)) : nodeCalls (mainTrace env inv) ≠ [] := by
  unfold DataGiven at hd
  have key : (inv.input_file.length ≠ 0 → (fileRead env inv (start inv)).2 = none) ∧
      (¬ inv.input_file.length ≠ 0 → ¬ inv.args.length < 2) := by
    split_ifs at hd with hf
    · exact ⟨fun h => absurd (by simp [hf]) h, fun _ => by omega⟩
    · obtain ⟨bytes, hmem⟩ := hd
      obtain ⟨h1, h2⟩ := fileRead_of_mem env inv hv hc bytes none hmem
      exact ⟨fun _ => by rw [h2], fun h => absurd h1 h⟩
  rcases hc with hc | hc
  · rw [nodeCalls_create_switch env inv hv hc]
    split_ifs with h1 h2 h3
    · rw [key.1 h1] at h2; cases h2
    · simp
    · exact absurd h3 (key.2 h1)
    · simp
  · rw [mainTrace, run_valid env inv hv, hc, nodeCalls_dispatch_set, nodeCalls_start,
      List.nil_append]
    split_ifs with h1 h2 h3
    · rw [key.1 h1] at h2; cases h2
    · simp
    · exact absurd h3 (key.2 h1)
    · simp

theorem switchCommand_of_creater (inv : Invocation) (hc : inv.command = ascii "creater") :
    switchCommand inv = ascii "create" := by
  simp [switchCommand, hc]

theorem unknown_of_not_documented (inv : Invocation)
    (h : inv.command ∉ documentedCommands) :
    inv.command ≠ ascii "creater" ∧ Unknown inv.command := by
  simp only [documentedCommands, List.mem_cons, List.mem_singleton, List.not_mem_nil,
    or_false, not_or] at h
  obtain ⟨h1, h2, h3, h4, h5, h6, h7, h8⟩ := h
  exact ⟨h6, h1, h2, h3, h4, h5, h7, h8⟩

end Runs

/-! ## The claims -/

section Claims

variable {Err Created Stat : Type}

/-- C1, as stated, fails: on the command line `-servers localhost:2181 -c get ""`
the path handed to `zk.Get` is the empty string, so it is not true that every
path handed to a node operation is non-empty and does not end with `/`. -/
theorem C1_counterexample_empty_path :
    nodeCalls (mainTrace sampleEnv (commandLine "get" "" [""])) = [NodeCall.Get []] ∧
      ¬ ∀ c ∈ nodeCalls (mainTrace sampleEnv (commandLine "get" "" [""])),
          c.path ≠ [] ∧ HasSuffix c.path (ascii "/") = false := by
  decide

/-- C1 (amended): for every invocation of `main`, the path handed to a node
operation is the first positional argument (which is present), and it does not
end with `/`. -/
theorem C1_node_path_is_first_argument (env : Env Err Created Stat) (inv : Invocation)
    (c : NodeCall) (hc : c ∈ nodeCalls (mainTrace env inv)) :
    inv.args.head? = some c.path ∧ HasSuffix c.path (ascii "/") = false := by
  rcases nodeCalls_run env inv with h | ⟨hv, c', h, hp, _⟩
  · rw [h] at hc
    cases hc
  · rw [h, List.mem_singleton] at hc
    subst hc
    rw [hp]
    exact ⟨flagArg_zero_head inv.args hv.2.2.1, hv.2.2.2⟩

theorem C1_node_path_is_first_argument_witness :
    NodeCall.Get (ascii "/a") ∈ nodeCalls (mainTrace sampleEnv (commandLine "get" "" ["/a"])) ∧
      (commandLine "get" "" ["/a"]).args.head? = some (NodeCall.Get (ascii "/a")).path ∧
      HasSuffix (NodeCall.Get (ascii "/a")).path (ascii "/") = false :=
  ⟨by decide,
    C1_node_path_is_first_argument sampleEnv (commandLine "get" "" ["/a"])
      (NodeCall.Get (ascii "/a")) (by decide)⟩

/-- C2: invalid invocations never reach the store. If the servers flag is empty,
or the command flag is empty, or there is no positional argument, or the first
positional argument ends with `/`, then `main` ends in a call of `log.Fatal`
(the process exits there) and has called neither `zk.SetServers` nor any node
operation. If the command is `create`, `creater` or `set`, no input file is given
and there are fewer than two positional arguments, then `main` ends in a call of
`log.Fatal` and has called no node operation. -/
theorem C2_invalid_invocations_never_reach_the_store (env : Env Err Created Stat)
    (inv : Invocation) :
    ((inv.servers = [] ∨ inv.command = [] ∨ inv.args = [] ∨
        HasSuffix (flagArg inv.args 0) (ascii "/") = true) →
      EndsInFatal (run env inv) ∧ setServersCalls (mainTrace env inv) = [] ∧
        nodeCalls (mainTrace env inv) = []) ∧
    (((inv.command = ascii "create" ∨ inv.command = ascii "creater" ∨
          inv.command = ascii "set") ∧ inv.input_file = [] ∧ inv.args.length < 2) →
      EndsInFatal (run env inv) ∧ nodeCalls (mainTrace env inv) = []) := by
  have hinv : ¬ Valid inv → EndsInFatal (run env inv) ∧
      setServersCalls (mainTrace env inv) = [] ∧ nodeCalls (mainTrace env inv) = [] := by
    intro hv
    obtain ⟨msg, h⟩ := run_invalid env inv hv
    have ht : mainTrace env inv = preamble inv ++ [.logFatal msg] := by
      simp [mainTrace, h]
    refine ⟨⟨by simp [h], msg, by simp [h]⟩, ?_, ?_⟩
    · have hp : setServersCalls (preamble inv : List (Event Err Created Stat)) = [] :=
        setServersCalls_preamble inv
      rw [ht, setServersCalls, List.filter_append]
      simpa [setServersCalls, Event.isSetServers] using hp
    · rw [ht, nodeCalls_append, nodeCalls_preamble]
      simp [nodeCalls, Event.nodeCall]
  constructor
  · intro h
    apply hinv
    rintro ⟨h1, h2, h3, h4⟩
    rcases h with h | h | h | h
    · exact h1 h
    · exact h2 h
    · exact h3 h
    · rw [h4] at h; cases h
  · rintro ⟨hc, hf, ha⟩
    by_cases hv : Valid inv
    · have hsw : switchCommand inv = ascii "create" ∨ switchCommand inv = ascii "set" := by
        unfold switchCommand
        rcases hc with h | h | h <;> simp +decide [h]
      have hlen : ¬ inv.input_file.length ≠ 0 := by simp [hf]
      simp only [mainTrace, run_valid env inv hv, EndsInFatal]
      rcases hsw with h | h
      · rw [h, dispatch_create, if_neg hlen, if_pos ha]
        simp [nodeCalls_append, nodeCalls_start]
        simp [nodeCalls, Event.nodeCall]
      · rw [h, dispatch_set, if_neg hlen, if_pos ha]
        simp [nodeCalls_append, nodeCalls_start]
        simp [nodeCalls, Event.nodeCall]
    · exact ⟨(hinv hv).1, (hinv hv).2.2⟩

theorem C2_invalid_invocations_never_reach_the_store_witness :
    (HasSuffix (flagArg (commandLine "get" "" ["/a/"]).args 0) (ascii "/") = true ∧
      EndsInFatal (run sampleEnv (commandLine "get" "" ["/a/"])) ∧
      setServersCalls (mainTrace sampleEnv (commandLine "get" "" ["/a/"])) = [] ∧
      nodeCalls (mainTrace sampleEnv (commandLine "get" "" ["/a/"])) = []) ∧
    (((commandLine "creater" "" ["/a"]).command = ascii "creater" ∧
        (commandLine "creater" "" ["/a"]).input_file = [] ∧
        (commandLine "creater" "" ["/a"]).args.length < 2) ∧
      EndsInFatal (run sampleEnv (commandLine "creater" "" ["/a"])) ∧
      nodeCalls (mainTrace sampleEnv (commandLine "creater" "" ["/a"])) = []) :=
  ⟨⟨by decide,
      (C2_invalid_invocations_never_reach_the_store sampleEnv
        (commandLine "get" "" ["/a/"])).1 (Or.inr (Or.inr (Or.inr (by decide))))⟩,
    ⟨by decide,
      (C2_invalid_invocations_never_reach_the_store sampleEnv
        (commandLine "creater" "" ["/a"])).2 ⟨Or.inr (Or.inl (by decide)), by decide, by decide⟩⟩⟩

/-- C3: results flow back unchanged. For every valid invocation with command
`get`, `ls` or `lsr` in which the node operation (`zk.Get`, `zk.Children`,
`zk.ChildrenRecursive`) returned a value `r` and no error, `main` makes exactly one
output call, and that call receives exactly `r` and the value of the format
flag. -/
theorem C3_results_flow_back_unchanged (env : Env Err Created Stat) (inv : Invocation)
    (hv : Valid inv) :
    (inv.command = ascii "get" → ∀ p r,
        Event.zkGet p r none ∈ mainTrace env inv →
        outputCalls (mainTrace env inv) = [.outputPrintString r inv.format]) ∧
    (inv.command = ascii "ls" → ∀ p r,
        Event.zkChildren p r none ∈ mainTrace env inv →
        outputCalls (mainTrace env inv) = [.outputPrintStringArray r inv.format]) ∧
    (inv.command = ascii "lsr" → ∀ p r,
        Event.zkChildrenRecursive p r none ∈ mainTrace env inv →
        outputCalls (mainTrace env inv) = [.outputPrintStringArray r inv.format]) := by
  refine ⟨?_, ?_, ?_⟩
  · intro hc p r hmem
    have hsw : switchCommand inv = ascii "get" := by
      rw [switchCommand_of_ne inv (by rw [hc]; decide), hc]
    rw [mainTrace, run_valid env inv hv, hsw, dispatch_get] at hmem ⊢
    split_ifs at hmem ⊢ with h
    · simp only [List.mem_append, List.mem_cons, List.mem_singleton, List.not_mem_nil,
        or_false] at hmem
      rcases hmem with hm | hm | hm
      · exact absurd hm (zkGet_not_mem_start inv p r none)
      · injection hm with _ hr _
        rw [outputCalls_append, outputCalls_start, hr]
        simp [outputCalls, Event.isOutput]
      · cases hm
    · exfalso
      simp only [List.mem_append, List.mem_cons, List.mem_singleton, List.not_mem_nil,
        or_false] at hmem
      rcases hmem with hm | hm | hm
      · exact absurd hm (zkGet_not_mem_start inv p r none)
      · injection hm with _ _ he
        rw [← he] at h
        exact h rfl
      · cases hm
  · intro hc p r hmem
    have hsw : switchCommand inv = ascii "ls" := by
      rw [switchCommand_of_ne inv (by rw [hc]; decide), hc]
    rw [mainTrace, run_valid env inv hv, hsw, dispatch_ls] at hmem ⊢
    split_ifs at hmem ⊢ with h
    · simp only [List.mem_append, List.mem_cons, List.mem_singleton, List.not_mem_nil,
        or_false] at hmem
      rcases hmem with hm | hm | hm
      · exact absurd hm (zkChildren_not_mem_start inv p r none)
      · injection hm with _ hr _
        rw [outputCalls_append, outputCalls_start, hr]
        simp [outputCalls, Event.isOutput]
      · cases hm
    · exfalso
      simp only [List.mem_append, List.mem_cons, List.mem_singleton, List.not_mem_nil,
        or_false] at hmem
      rcases hmem with hm | hm | hm
      · exact absurd hm (zkChildren_not_mem_start inv p r none)
      · injection hm with _ _ he
        rw [← he] at h
        exact h rfl
      · cases hm
  · intro hc p r hmem
    have hsw : switchCommand inv = ascii "lsr" := by
      rw [switchCommand_of_ne inv (by rw [hc]; decide), hc]
    rw [mainTrace, run_valid env inv hv, hsw, dispatch_lsr] at hmem ⊢
    split_ifs at hmem ⊢ with h
    · simp only [List.mem_append, List.mem_cons, List.mem_singleton, List.not_mem_nil,
        or_false] at hmem
      rcases hmem with hm | hm | hm
      · exact absurd hm (zkChildrenRecursive_not_mem_start inv p r none)
      · injection hm with _ hr _
        rw [outputCalls_append, outputCalls_start, hr]
        simp [outputCalls, Event.isOutput]
      · cases hm
    · exfalso
      simp only [List.mem_append, List.mem_cons, List.mem_singleton, List.not_mem_nil,
        or_false] at hmem
      rcases hmem with hm | hm | hm
      · exact absurd hm (zkChildrenRecursive_not_mem_start inv p r none)
      · injection hm with _ _ he
        rw [← he] at h
        exact h rfl
      · cases hm

theorem C3_results_flow_back_unchanged_witness :
    (Valid (commandLine "lsr" "" ["/a"]) ∧
      (commandLine "lsr" "" ["/a"]).command = ascii "lsr" ∧
      Event.zkChildrenRecursive (ascii "/a") [ascii "b", ascii "b/d", ascii "c"] none ∈
        mainTrace sampleEnv (commandLine "lsr" "" ["/a"])) ∧
    outputCalls (mainTrace sampleEnv (commandLine "lsr" "" ["/a"])) =
      [.outputPrintStringArray [ascii "b", ascii "b/d", ascii "c"]
        (commandLine "lsr" "" ["/a"]).format] :=
  ⟨⟨by decide, by decide, by decide⟩,
    (C3_results_flow_back_unchanged sampleEnv (commandLine "lsr" "" ["/a"])
      (by decide)).2.2 (by decide) (ascii "/a") [ascii "b", ascii "b/d", ascii "c"]
      (by decide)⟩

/-- C4: the process terminates on first error. For every invocation of `main`
(so for every valid one, with any command), if a call `ev` of `ioutil.ReadFile` or
of a node operation returns a non-nil error `e`, then the process exits, the
call is followed by `log.Fatale(e)` and by nothing else, no output call is made,
and no node operation other than (possibly) `ev` itself is called. -/
theorem C4_first_error_terminates (env : Env Err Created Stat) (inv : Invocation)
    (ev : Event Err Created Stat) (e : Err)
    (hev : ev ∈ mainTrace env inv) (hfail : ev.failure = some e) :
    (run env inv).value = none ∧
      (∃ pre, mainTrace env inv = pre ++ [ev, .logFatale (some e)]) ∧
      outputCalls (mainTrace env inv) = [] ∧
      nodeCalls (mainTrace env inv) = nodeCalls [ev] := by
  have key : StopsAt (run env inv) ev e := by
    by_cases hv : Valid inv
    · rw [mainTrace, run_valid env inv hv] at hev
      rw [run_valid env inv hv]
      exact dispatch_stops env inv _ _ _ _ (failure_start inv) (nodeCalls_start inv)
        (outputCalls_start inv) ev e hev hfail
    · obtain ⟨msg, h⟩ := run_invalid env inv hv
      rw [mainTrace, h] at hev
      exact (no_failure_single _ _ (failure_preamble inv) (by rfl) ev e hev hfail).elim
  exact key

theorem C4_first_error_terminates_witness :
    (Event.zkCreate (ascii "/a") (ascii "from file") true 0 (some 7) ∈
        mainTrace failingEnv (commandLine "creater" "in.txt" ["/a"]) ∧
      (Event.zkCreate (ascii "/a") (ascii "from file") true 0 (some 7) :
        Event Nat Nat Nat).failure = some 7) ∧
    (run failingEnv (commandLine "creater" "in.txt" ["/a"])).value = none ∧
      (∃ pre, mainTrace failingEnv (commandLine "creater" "in.txt" ["/a"]) =
        pre ++ [Event.zkCreate (ascii "/a") (ascii "from file") true 0 (some 7),
          .logFatale (some 7)]) ∧
      outputCalls (mainTrace failingEnv (commandLine "creater" "in.txt" ["/a"])) = [] ∧
      nodeCalls (mainTrace failingEnv (commandLine "creater" "in.txt" ["/a"])) =
        nodeCalls [(Event.zkCreate (ascii "/a") (ascii "from file") true 0 (some 7) :
          Event Nat Nat Nat)] :=
  ⟨⟨by decide, by decide⟩,
    C4_first_error_terminates failingEnv (commandLine "creater" "in.txt" ["/a"])
      (Event.zkCreate (ascii "/a") (ascii "from file") true 0 (some 7)) 7
      (by decide) (by decide)⟩

/-- C5: `create` hands the data to the store byte for byte, whatever its source.
For every valid invocation with command `create`: when an input file is given and
was read as the bytes `D`, the node operations called are exactly the one call
`zk.Create(path, D, force)`; when no input file is given and there is a second
positional argument, they are exactly the one call
`zk.Create(path, bytes of that argument, force)`; here `path` is the first
positional argument and `force` the force flag. So an invocation given the bytes
`D` by argument makes the same `zk.Create` call as one given them by file. -/
theorem C5_create_hands_data_unchanged (env : Env Err Created Stat) (inv : Invocation)
    (hv : Valid inv) (hc : inv.command = ascii "create") :
    (inv.input_file ≠ [] → ∀ D,
        Event.ioutilReadFile inv.input_file D none ∈ mainTrace env inv →
        nodeCalls (mainTrace env inv) = [.Create (flagArg inv.args 0) D inv.force]) ∧
    (inv.input_file = [] → 2 ≤ inv.args.length →
        nodeCalls (mainTrace env inv) =
          [.Create (flagArg inv.args 0) (flagArg inv.args 1) inv.force]) ∧
    (inv.input_file ≠ [] → ∀ D,
        Event.ioutilReadFile inv.input_file D none ∈ mainTrace env inv →
        ∀ (env2 : Env Err Created Stat) (inv2 : Invocation), Valid inv2 →
          inv2.command = ascii "create" → inv2.input_file = [] →
          2 ≤ inv2.args.length → flagArg inv2.args 0 = flagArg inv.args 0 →
          flagArg inv2.args 1 = D → inv2.force = inv.force →
          nodeCalls (mainTrace env2 inv2) = nodeCalls (mainTrace env inv)) := by
  have hfile : inv.input_file ≠ [] → ∀ D,
      Event.ioutilReadFile inv.input_file D none ∈ mainTrace env inv →
      nodeCalls (mainTrace env inv) = [.Create (flagArg inv.args 0) D inv.force] := by
    intro _ D hmem
    obtain ⟨h1, h2⟩ :=
      fileRead_of_mem env inv hv (Or.inl (switchCommand_create_of inv hc)) D none hmem
    rw [nodeCalls_create_valid env inv hv hc, if_pos h1, h2]
    simp
  refine ⟨hfile, ?_, ?_⟩
  · intro hf ha
    have h1 : ¬ inv.input_file.length ≠ 0 := by simp [hf]
    rw [nodeCalls_create_valid env inv hv hc, if_neg h1, if_neg (by omega)]
  · intro hf D hmem env2 inv2 hv2 hc2 hf2 hlen hp hd hforce
    have h1 : ¬ inv2.input_file.length ≠ 0 := by simp [hf2]
    rw [hfile hf D hmem, nodeCalls_create_valid env2 inv2 hv2 hc2, if_neg h1,
      if_neg (by omega), hp, hd, hforce]

theorem C5_create_hands_data_unchanged_witness :
    (Valid (commandLine "create" "in.txt" ["/a"]) ∧
      (commandLine "create" "in.txt" ["/a"]).command = ascii "create" ∧
      (commandLine "create" "in.txt" ["/a"]).input_file ≠ [] ∧
      Event.ioutilReadFile (commandLine "create" "in.txt" ["/a"]).input_file
        (ascii "from file") none ∈
        mainTrace sampleEnv (commandLine "create" "in.txt" ["/a"])) ∧
    nodeCalls (mainTrace sampleEnv (commandLine "create" "in.txt" ["/a"])) =
      [.Create (flagArg (commandLine "create" "in.txt" ["/a"]).args 0) (ascii "from file")
        (commandLine "create" "in.txt" ["/a"]).force] :=
  ⟨⟨by decide, by decide, by decide, by decide⟩,
    (C5_create_hands_data_unchanged sampleEnv (commandLine "create" "in.txt" ["/a"])
      (by decide) (by decide)).1 (by decide) (ascii "from file") (by decide)⟩

/-- C6: the shell selects one command and invokes the node operations once. For
every invocation of `main`, at most one node operation is called, and a node
operation that is called is the one matching the command. When validation
passes, the command is a documented one and (for `create`, `creater`, `set`) its
data is at hand, exactly the matching operation is called. For every command
outside `exists|get|ls|lsr|create|creater|set|delete` no node operation is
called, and when validation passes `main` ends with the fatal
`Unknown command` message. -/
theorem C6_one_command_one_node_operation (env : Env Err Created Stat)
    (inv : Invocation) :
    (nodeCalls (mainTrace env inv)).length ≤ 1 ∧
    (∀ c ∈ nodeCalls (mainTrace env inv), Matches inv.command c) ∧
    (Valid inv → inv.command ∈ documentedCommands →
      (inv.command ∈ writeCommands → DataGiven inv (mainTrace env inv)) →
      ∃ c, nodeCalls (mainTrace env inv) = [c] ∧ Matches inv.command c) ∧
    (inv.command ∉ documentedCommands →
      nodeCalls (mainTrace env inv) = [] ∧
      (Valid inv → (run env inv).value = none ∧
        (mainTrace env inv).getLast? =
          some (.logFatalf (ascii "Unknown command: %s") inv.command))) := by
  refine ⟨?_, ?_, ?_, ?_⟩
  · rcases nodeCalls_run env inv with h | ⟨_, c, h, _⟩ <;> simp [h]
  · intro c hc
    rcases nodeCalls_run env inv with h | ⟨_, c', h, _, hm⟩
    · rw [h] at hc; cases hc
    · rw [h, List.mem_singleton] at hc
      rw [hc]; exact hm
  · intro hv hdoc hdata
    have hne : nodeCalls (mainTrace env inv) ≠ [] := by
      simp only [documentedCommands, List.mem_cons, List.mem_singleton, List.not_mem_nil,
        or_false] at hdoc
      rcases hdoc with h | h | h | h | h | h | h | h
      · rw [mainTrace, run_valid env inv hv, switchCommand_of_ne inv (by rw [h]; decide),
          h, nodeCalls_dispatch_exists]
        simp
      · rw [mainTrace, run_valid env inv hv, switchCommand_of_ne inv (by rw [h]; decide),
          h, nodeCalls_dispatch_get]
        simp
      · rw [mainTrace, run_valid env inv hv, switchCommand_of_ne inv (by rw [h]; decide),
          h, nodeCalls_dispatch_ls]
        simp
      · rw [mainTrace, run_valid env inv hv, switchCommand_of_ne inv (by rw [h]; decide),
          h, nodeCalls_dispatch_lsr]
        simp
      · exact nodeCalls_write_given env inv hv (Or.inl (switchCommand_create_of inv h))
          (hdata (by simp [writeCommands, h]))
      · exact nodeCalls_write_given env inv hv (Or.inl (switchCommand_of_creater inv h))
          (hdata (by simp [writeCommands, h]))
      · exact nodeCalls_write_given env inv hv (Or.inr (switchCommand_set_of inv h))
          (hdata (by simp [writeCommands, h]))
      · rw [mainTrace, run_valid env inv hv, switchCommand_of_ne inv (by rw [h]; decide),
          h, nodeCalls_dispatch_delete]
        simp
    rcases nodeCalls_run env inv with h | ⟨_, c, h, _, hm⟩
    · exact absurd h hne
    · exact ⟨c, h, hm⟩
  · intro hdoc
    obtain ⟨hne, hunk⟩ := unknown_of_not_documented inv hdoc
    constructor
    · rcases nodeCalls_run env inv with h | ⟨_, c, _, _, hm⟩
      · exact h
      · exfalso
        apply hdoc
        simp only [documentedCommands, List.mem_cons, List.mem_singleton,
          List.not_mem_nil, or_false]
        cases c <;> simp only [Matches] at hm <;> tauto
    · intro hv
      rw [mainTrace, run_valid env inv hv, switchCommand_of_ne inv hne,
        dispatch_unknown env inv _ _ _ _ hunk]
      simp

theorem C6_one_command_one_node_operation_witness :
    (NodeCall.Delete (ascii "/a") ∈
        nodeCalls (mainTrace sampleEnv (commandLine "delete" "" ["/a"])) ∧
      Matches (commandLine "delete" "" ["/a"]).command (NodeCall.Delete (ascii "/a"))) ∧
    ((commandLine "remove" "" ["/a"]).command ∉ documentedCommands ∧
      Valid (commandLine "remove" "" ["/a"]) ∧
      (run sampleEnv (commandLine "remove" "" ["/a"])).value = none ∧
      (mainTrace sampleEnv (commandLine "remove" "" ["/a"])).getLast? =
        some (.logFatalf (ascii "Unknown command: %s")
          (commandLine "remove" "" ["/a"]).command)) :=
  ⟨⟨by decide,
      (C6_one_command_one_node_operation sampleEnv (commandLine "delete" "" ["/a"])).2.1
        (NodeCall.Delete (ascii "/a")) (by decide)⟩,
    ⟨by decide, by decide,
      ((C6_one_command_one_node_operation sampleEnv
        (commandLine "remove" "" ["/a"])).2.2.2 (by decide)).2 (by decide)⟩⟩

/-- C7: for every tree `T` of the data model and every node `root` of it,
`childrenRecursive(root)` (the operation behind `lsr`, modelled from spec section
4.1) returns, given fuel for the height of the tree, a sequence `l` of relative
paths such that: the members of `l` are exactly the paths of the descendants of
`root` other than `root`, each stripped of the root prefix; no relative path
occurs twice; the relative path of a node occurs earlier in `l` than that of each
of its descendants (pre-order); and `l` is empty when `root` has no children. -/
theorem C7_childrenRecursive_lists_descendants_in_preorder (T : Tree)
    (hwf : T.wellFormed = true) (root : Path) (hroot : (T.resolve root).isSome = true)
    (fuel : Nat) (hfuel : T.height < fuel) :
    ∃ l, childrenRecursive T.listChildren fuel root = some (.ok l) ∧
      (∀ r, r ∈ l ↔ ∃ segs, T.isDescendantOf root segs ∧
        r = stripRoot root (pathString (root ++ segs))) ∧
      l.Nodup ∧
      (∀ anc more, anc ≠ [] → more ≠ [] → T.isDescendantOf root (anc ++ more) →
        ∃ l1 l2, l = l1 ++ stripRoot root (pathString (root ++ anc)) :: l2 ∧
          stripRoot root (pathString (root ++ (anc ++ more))) ∈ l2) ∧
      (T.listChildren root = .ok [] → l = []) := by
  obtain ⟨S, hS⟩ := Option.isSome_iff_exists.mp hroot
  have hwS : S.wellFormed = true := wellFormed_resolve T hwf root S hS
  have hdesc : ∀ segs, T.isDescendantOf root segs ↔ S.isDescendant segs := by
    intro segs
    simp [Tree.isDescendantOf, Tree.isDescendant, resolve_append, hS]
  have hjoin : (joinRel none : Path → GoString) = joinSegments := rfl
  refine ⟨S.preorder.map joinSegments, ?_, ?_, ?_, ?_, ?_⟩
  · have := childrenRecursiveFrom_ok T fuel S root none hS hwS
      (Nat.lt_of_le_of_lt (height_resolve_le T root S hS) hfuel)
    rw [hjoin] at this
    exact this
  · intro r
    simp only [List.mem_map]
    constructor
    · rintro ⟨p, hp, rfl⟩
      have hd := (mem_preorder_iff S hwS p).1 hp
      exact ⟨p, (hdesc p).2 hd, (stripRoot_pathString root p hd.1).symm⟩
    · rintro ⟨segs, hd, rfl⟩
      have hd' := (hdesc segs).1 hd
      exact ⟨segs, (mem_preorder_iff S hwS segs).2 hd', (stripRoot_pathString root segs hd'.1).symm⟩
  · apply List.Nodup.map_on _ (preorder_nodup S hwS)
    intro p hp q hq h
    exact joinSegments_inj p q (preorder_ne_nil S p hp) (preorder_ne_nil S q hq)
      (names_valid_of_mem_preorder S hwS p hp) (names_valid_of_mem_preorder S hwS q hq) h
  · intro anc more ha hm hd
    have hmem : anc ++ more ∈ S.preorder :=
      (mem_preorder_iff S hwS _).2 ((hdesc _).1 hd)
    obtain ⟨l1, l2, e, hin⟩ := preorder_ancestor_first S anc more ha hm hmem
    refine ⟨l1.map joinSegments, l2.map joinSegments, ?_, ?_⟩
    · rw [e, stripRoot_pathString root anc ha]
      simp
    · rw [stripRoot_pathString root (anc ++ more) (by simp [ha])]
      exact List.mem_map_of_mem _ hin
  · intro hleaf
    simp only [Tree.listChildren, hS, Except.ok.injEq] at hleaf
    rw [names_eq_nil S hleaf]
    rfl

theorem C7_childrenRecursive_lists_descendants_in_preorder_witness :
    (sampleTree.wellFormed = true ∧ (sampleTree.resolve [ascii "a"]).isSome = true ∧
      sampleTree.height < 4 ∧
      childrenRecursive sampleTree.listChildren 4 [ascii "a"] =
        some (.ok [ascii "b", ascii "b/d", ascii "c"])) ∧
    ∃ l, childrenRecursive sampleTree.listChildren 4 [ascii "a"] = some (.ok l) ∧
      (∀ r, r ∈ l ↔ ∃ segs, sampleTree.isDescendantOf [ascii "a"] segs ∧
        r = stripRoot [ascii "a"] (pathString ([ascii "a"] ++ segs))) ∧
      l.Nodup ∧
      (∀ anc more, anc ≠ [] → more ≠ [] →
        sampleTree.isDescendantOf [ascii "a"] (anc ++ more) →
        ∃ l1 l2, l = l1 ++ stripRoot [ascii "a"] (pathString ([ascii "a"] ++ anc)) :: l2 ∧
          stripRoot [ascii "a"] (pathString ([ascii "a"] ++ (anc ++ more))) ∈ l2) ∧
      (sampleTree.listChildren [ascii "a"] = .ok [] → l = []) :=
  ⟨⟨by decide, by decide, by decide, by decide⟩,
    C7_childrenRecursive_lists_descendants_in_preorder sampleTree (by decide)
      [ascii "a"] (by decide) 4 (by decide)⟩

/-- C8: the command `creater` is `create` with force. For every environment and
every command line, running `main` with command `creater` gives exactly the same
run (the same calls with the same arguments and answers, in the same order, and
the same end) as running it with command `create` and the force flag set; every
`zk.Create` call of a `creater` run has force `true`, and with command `create`
the force value passed to `zk.Create` is the force flag, unchanged. -/
theorem C8_creater_is_create_with_force (env : Env Err Created Stat) (inv : Invocation) :
    run env { inv with command := ascii "creater" } =
        run env { inv with command := ascii "create", force := true } ∧
      (∀ c ∈ nodeCalls (mainTrace env { inv with command := ascii "creater" }),
        ∃ p d, c = .Create p d true) ∧
      (∀ c ∈ nodeCalls (mainTrace env { inv with command := ascii "create" }),
        ∃ p d, c = .Create p d inv.force) := by
  have hrun : run env { inv with command := ascii "creater" } =
      run env { inv with command := ascii "create", force := true } := by
    simp only [run, main_eq]
    rw [dispatch_congr env { inv with command := ascii "creater" }
      { inv with command := ascii "create", force := true } rfl rfl rfl]
    simp +decide [start, preamble]
  have hcreate : ∀ inv2 : Invocation, inv2.command = ascii "create" →
      ∀ c ∈ nodeCalls (mainTrace env inv2), ∃ p d, c = .Create p d inv2.force := by
    intro inv2 hc c hmem
    by_cases hv : Valid inv2
    · rw [nodeCalls_create_valid env inv2 hv hc] at hmem
      split_ifs at hmem <;> simp at hmem <;> exact ⟨_, _, hmem⟩
    · rw [nodeCalls_of_not_valid env inv2 hv] at hmem
      cases hmem
  refine ⟨hrun, ?_, ?_⟩
  · intro c hmem
    rw [mainTrace, hrun] at hmem
    exact hcreate { inv with command := ascii "create", force := true } rfl c hmem
  · intro c hmem
    exact hcreate { inv with command := ascii "create" } rfl c hmem

theorem C8_creater_is_create_with_force_witness :
    NodeCall.Create (ascii "/a") (ascii "data") true ∈
        nodeCalls (mainTrace sampleEnv
          { commandLine "create" "" ["/a", "data"] with command := ascii "creater" }) ∧
      ∃ p d, NodeCall.Create (ascii "/a") (ascii "data") true = .Create p d true :=
  ⟨by decide,
    (C8_creater_is_create_with_force sampleEnv
      (commandLine "create" "" ["/a", "data"])).2.1
      (NodeCall.Create (ascii "/a") (ascii "data") true) (by decide)⟩

/-- C9: `set` chooses its write operation by data source. For every valid
invocation with command `set`, at most one node operation is called; when the
input-file flag is non-empty and the file was read as the bytes `D`, the node
operations called are exactly `zk.SetWithVersionUpgrade(path, D)`, plain `zk.Set`
is never called, and the positional arguments after the first play no part (any
other ones give the same run); when the input-file flag is empty,
`zk.SetWithVersionUpgrade` is never called and, a second positional argument
being given, the node operations called are exactly
`zk.Set(path, bytes of that argument)`. -/
theorem C9_set_chooses_operation_by_data_source (env : Env Err Created Stat)
    (inv : Invocation) (hv : Valid inv) (hc : inv.command = ascii "set") :
    (nodeCalls (mainTrace env inv)).length ≤ 1 ∧
    (inv.input_file ≠ [] →
      (∀ D, Event.ioutilReadFile inv.input_file D none ∈ mainTrace env inv →
        nodeCalls (mainTrace env inv) =
          [.SetWithVersionUpgrade (flagArg inv.args 0) D]) ∧
      (∀ p d, NodeCall.Set p d ∉ nodeCalls (mainTrace env inv)) ∧
      (∀ rest, run env { inv with args := flagArg inv.args 0 :: rest } = run env inv)) ∧
    (inv.input_file = [] →
      (2 ≤ inv.args.length →
        nodeCalls (mainTrace env inv) = [.Set (flagArg inv.args 0) (flagArg inv.args 1)]) ∧
      (∀ p d, NodeCall.SetWithVersionUpgrade p d ∉ nodeCalls (mainTrace env inv))) := by
  have hcalls := nodeCalls_set_valid env inv hv hc
  refine ⟨?_, ?_, ?_⟩
  · rw [hcalls]
    split_ifs <;> simp
  · intro hf
    have h1 : inv.input_file.length ≠ 0 := by
      simpa using hf
    refine ⟨?_, ?_, ?_⟩
    · intro D hmem
      obtain ⟨_, h2⟩ :=
        fileRead_of_mem env inv hv (Or.inr (switchCommand_set_of inv hc)) D none hmem
      rw [hcalls, if_pos h1, h2]
      simp
    · intro p d hmem
      rw [hcalls, if_pos h1] at hmem
      split_ifs at hmem <;> simp at hmem
    · intro rest
      have hv2 : Valid { inv with args := flagArg inv.args 0 :: rest } :=
        ⟨hv.1, hv.2.1, by simp, by simpa [flagArg] using hv.2.2.2⟩
      have hne : inv.command ≠ ascii "creater" := by rw [hc]; decide
      rw [run_valid env _ hv2, run_valid env inv hv]
      have e1 : switchCommand { inv with args := flagArg inv.args 0 :: rest } =
          ascii "set" := switchCommand_set_of _ hc
      rw [e1, switchCommand_set_of inv hc, dispatch_set, dispatch_set, if_pos h1,
        if_pos h1]
      simp only [flagArg, List.getD_cons_zero]
      rfl
  · intro hf
    have h1 : ¬ inv.input_file.length ≠ 0 := by simp [hf]
    refine ⟨?_, ?_⟩
    · intro ha
      rw [hcalls, if_neg h1, if_neg (by omega)]
    · intro p d hmem
      rw [hcalls, if_neg h1] at hmem
      split_ifs at hmem <;> simp at hmem

theorem C9_set_chooses_operation_by_data_source_witness :
    (Valid (commandLine "set" "in.txt" ["/a", "ignored"]) ∧
      (commandLine "set" "in.txt" ["/a", "ignored"]).command = ascii "set" ∧
      (commandLine "set" "in.txt" ["/a", "ignored"]).input_file ≠ [] ∧
      Event.ioutilReadFile (commandLine "set" "in.txt" ["/a", "ignored"]).input_file
        (ascii "from file") none ∈
        mainTrace sampleEnv (commandLine "set" "in.txt" ["/a", "ignored"])) ∧
    nodeCalls (mainTrace sampleEnv (commandLine "set" "in.txt" ["/a", "ignored"])) =
      [.SetWithVersionUpgrade (flagArg (commandLine "set" "in.txt" ["/a", "ignored"]).args 0)
        (ascii "from file")] :=
  ⟨⟨by decide, by decide, by decide, by decide⟩,
    ((C9_set_chooses_operation_by_data_source sampleEnv
      (commandLine "set" "in.txt" ["/a", "ignored"]) (by decide) (by decide)).2.1
        (by decide)).1 (ascii "from file") (by decide)⟩

end Claims

end Zookeepercli
